import Mathlib

/-!
# talk-space-server: the socket relay of `src/app.js`

Shallow embedding of the in-memory room registry (`connections`), the chat
buffer (`messages`), the join-time table (`timeOnline`) and the four socket
handlers (`join-call`, `signal`, `chat-message`, `disconnect`) of `src/app.js`,
lines 85-187.

Modelling conventions.

* `connections`, `messages` and `timeOnline` are plain JavaScript objects. An
  object is embedded as the list of its own enumerable properties in the order
  `Object.entries` enumerates them: array-index keys first, ascending, then the
  other string keys in creation order. A property read `o[k]` that finds no own
  property falls through to `Object.prototype`.
* A handler is a transition `State → State × List Emit`. The registry work of
  `join-call` (lines 118-130) and all of `disconnect` are synchronous. The
  `chat-message` handler awaits its durable calls between the buffer append
  (line 154) and the broadcast (line 168), so it is split there: `chatAppend`
  is the synchronous head, `chatBroadcast` reads `connections[roomKey]` in
  whatever state it runs in, and `chatMessage` is the handler when no other
  handler runs in between.
* `io.to(id).emit(...)` is recorded as an `Emit` addressed to `id`.
* Strings are Lean strings; `length` counts UTF-16 code units as JavaScript does.
* The MongoDB collections behind `User`, `Group` and `Chat` are not part of the
  sources; they are modelled from the collaborator contract of the specification,
  and every call to them may fail (`JoinFaults`, `ChatFaults`).
* `xss` is an external library: `sanitizeString` is a parameter.
* `new Date()` is the parameter `now`.
-/

namespace TalkSpace

/-! ## Strings -/

/-- JavaScript `str.length`: the number of UTF-16 code units. -/
def utf16Length (s : String) : Nat :=
  (s.toList.map (fun ch => if ch.toNat < 65536 then 1 else 2)).sum

/-- JavaScript `str.split("/")` on the characters of a string. -/
def splitSlash : List Char → List (List Char)
  | [] => [[]]
  | ch :: rest =>
    if ch = '/' then [] :: splitSlash rest
    else
      match splitSlash rest with
      | [] => [[ch]]
      | seg :: segs => (ch :: seg) :: segs

/-- The room code: `pathArr[pathArr.length - 1]` of `path.split("/")` (line 97-98),
also `roomKey.split("/").pop()` (line 158). -/
def lastSegment (p : String) : String :=
  String.mk ((splitSlash p.toList).getLast?.getD [])

/-! ## JavaScript objects used as maps -/

/-- Value of a string of decimal digits. -/
def digitsValue (cs : List Char) : Nat :=
  cs.foldl (fun acc ch => 10 * acc + (ch.toNat - 48)) 0

/-- ECMAScript array index: a canonical decimal numeral below `2^32 - 1`. -/
def arrayIndex? (k : String) : Option Nat :=
  let cs := k.toList
  if cs ≠ [] ∧ cs.all Char.isDigit = true ∧ (cs.head? ≠ some '0' ∨ cs.length = 1) ∧
      digitsValue cs < 4294967295 then
    some (digitsValue cs)
  else none

/-- Own-property order: a new key `k` is enumerated before the existing key `k2`. -/
def keyBefore (k k2 : String) : Bool :=
  match arrayIndex? k, arrayIndex? k2 with
  | some n, some m => decide (n < m)
  | some _, none => true
  | none, _ => false

/-- Own property `k` of the object, if there is one. -/
def objGet {α : Type} : List (String × α) → String → Option α
  | [], _ => none
  | (k2, v) :: rest, k => if k2 = k then some v else objGet rest k

/-- Assignment to an existing own property: the position is kept. -/
def objReplace {α : Type} : List (String × α) → String → α → List (String × α)
  | [], _, _ => []
  | (k2, v2) :: rest, k, v =>
    if k2 = k then (k, v) :: rest else (k2, v2) :: objReplace rest k v

/-- Creation of a new own property, placed where `Object.entries` will list it. -/
def objInsert {α : Type} : List (String × α) → String → α → List (String × α)
  | [], k, v => [(k, v)]
  | (k2, v2) :: rest, k, v =>
    if keyBefore k k2 then (k, v) :: (k2, v2) :: rest
    else (k2, v2) :: objInsert rest k v

/-- The assignment `o[k] = v` on own properties. -/
def objSet {α : Type} (o : List (String × α)) (k : String) (v : α) : List (String × α) :=
  match objGet o k with
  | some _ => objReplace o k v
  | none => objInsert o k v

/-- The statement `delete o[k]`. -/
def objDelete {α : Type} (o : List (String × α)) (k : String) : List (String × α) :=
  o.filter (fun e => e.1 != k)

/-- The own keys of an object, in enumeration order. -/
def objKeys {α : Type} (o : List (String × α)) : List String :=
  o.map Prod.fst

/-- Property names every object literal inherits from `Object.prototype`; each
of them reads as a truthy value that has no `push` and no `forEach`. -/
def objectPrototypeKeys : List String :=
  ["constructor", "__defineGetter__", "__defineSetter__", "hasOwnProperty",
   "__lookupGetter__", "__lookupSetter__", "isPrototypeOf", "propertyIsEnumerable",
   "toString", "valueOf", "__proto__", "toLocaleString"]

/-- Result of the property read `o[k]`. -/
inductive Lookup (α : Type)
  | own (v : α)
  | inherited
  | undefined
  deriving DecidableEq

/-- The property read `o[k]`: own property first, then `Object.prototype`. -/
def getProp {α : Type} (o : List (String × α)) (k : String) : Lookup α :=
  match objGet o k with
  | some v => Lookup.own v
  | none => if k ∈ objectPrototypeKeys then Lookup.inherited else Lookup.undefined

/-- The statement `if (!o[k]) o[k] = []` (lines 118 and 153): an array, being
an object, is truthy even when empty, so only an undefined read assigns. -/
def ensureArray {α : Type} (o : List (String × List α)) (k : String) : List (String × List α) :=
  match getProp o k with
  | Lookup.undefined => objSet o k []
  | _ => o

/-! ## Durable store -/

/-- Modelled from the spec: the `User` collection of `./models/user` is not
among the sources; a record carries the user name and the list of room codes. -/
structure UserDoc where
  username : String
  groups : List String
  deriving DecidableEq

/-- Modelled from the spec: the `Chat` collection of `./models/message` is not
among the sources; a record carries content and author. -/
structure ChatDoc where
  content : String
  author : String
  deriving DecidableEq

/-- Modelled from the spec: the `Group` collection of `./models/groups` is not
among the sources; a record carries the group id, its members and its messages. -/
structure GroupDoc where
  groupId : String
  members : List String
  messages : List ChatDoc
  deriving DecidableEq

/-- Modelled from the spec: the durable store is the three collections. -/
structure Durable where
  users : List UserDoc
  groups : List GroupDoc
  chats : List ChatDoc
  deriving DecidableEq

/-- Modelled from the spec: `FindUser(username) -> User?`, the first match. -/
def findUser (db : Durable) (name : String) : Option UserDoc :=
  db.users.find? (fun u => u.username = name)

/-- Modelled from the spec: `FindGroup(groupId) -> Group?`, the first match. -/
def findGroup (db : Durable) (gid : String) : Option GroupDoc :=
  db.groups.find? (fun g => g.groupId = gid)

/-- Replace the first element satisfying `p`. -/
def replaceFirst {α : Type} (p : α → Bool) (new : α) : List α → List α
  | [] => []
  | x :: rest => if p x then new :: rest else x :: replaceFirst p new rest

/-- Modelled from the spec: `SaveUser(User)` writes the document back in place. -/
def saveUser (db : Durable) (u : UserDoc) : Durable :=
  { db with users := replaceFirst (fun x => x.username = u.username) u db.users }

/-- Modelled from the spec: `SaveGroup(Group)` writes the document back in place. -/
def saveGroup (db : Durable) (g : GroupDoc) : Durable :=
  { db with groups := replaceFirst (fun x => x.groupId = g.groupId) g db.groups }

/-- The group records whose id is not `gid`, in collection order. -/
def groupsOtherThan (gid : String) (gs : List GroupDoc) : List GroupDoc :=
  gs.filter (fun g => g.groupId != gid)

/-- Which durable calls of `join-call` reject when they are reached. -/
structure JoinFaults where
  userFind : Bool
  userSave : Bool
  groupFind : Bool
  groupCreate : Bool
  groupSave : Bool
  deriving DecidableEq

/-- Which durable calls of `chat-message` reject when they are reached. -/
structure ChatFaults where
  chatCreate : Bool
  groupFind : Bool
  groupSave : Bool
  deriving DecidableEq

/-- No durable call of `join-call` rejects. -/
def noJoinFaults : JoinFaults := ⟨false, false, false, false, false⟩

/-- No durable call of `chat-message` rejects. -/
def noChatFaults : ChatFaults := ⟨false, false, false⟩

/-- Lines 103-107: the `user groups` block. The flag is `false` when a call
rejected and control went to the `catch`. -/
def joinUserPhase (db : Durable) (roomId userId : String) (f : JoinFaults) : Durable × Bool :=
  if f.userFind then (db, false)
  else
    match findUser db userId with
    | none => (db, true)
    | some user =>
      if !(user.groups.contains roomId) && (utf16Length roomId == 5) then
        if f.userSave then (db, false)
        else (saveUser db { user with groups := user.groups ++ [roomId] }, true)
      else (db, true)

/-- Lines 110-116: the `groups` block. -/
def joinGroupPhase (db : Durable) (roomId userId : String) (f : JoinFaults) : Durable × Bool :=
  if f.groupFind then (db, false)
  else
    match findGroup db roomId with
    | none =>
      if utf16Length roomId = 5 then
        if f.groupCreate then (db, false)
        else ({ db with groups := db.groups ++ [⟨roomId, [userId], []⟩] }, true)
      else (db, true)
    | some group =>
      if !(group.members.contains userId) then
        if f.groupSave then (db, false)
        else (saveGroup db { group with members := group.members ++ [userId] }, true)
      else (db, true)

/-- Lines 103-116: both durable blocks of `join-call`, in order. -/
def joinDurable (db : Durable) (roomId userId : String) (f : JoinFaults) : Durable × Bool :=
  let r := joinUserPhase db roomId userId f
  if r.2 then joinGroupPhase r.1 roomId userId f else r

/-- Lines 156-166: the durable block of `chat-message`; its `catch` swallows a
rejection, so only the store is returned. -/
def chatDurable (db : Durable) (roomId data sender : String) (f : ChatFaults) : Durable :=
  if f.chatCreate then db
  else
    let chatMsg : ChatDoc := ⟨data, sender⟩
    let db1 := { db with chats := db.chats ++ [chatMsg] }
    if f.groupFind then db1
    else
      match findGroup db1 roomId with
      | none => db1
      | some group =>
        if f.groupSave then db1
        else saveGroup db1 { group with messages := group.messages ++ [chatMsg] }

/-! ## Relay state and events -/

/-- A socket id. -/
abbrev ConnId := String

/-- An entry of `messages[roomKey]` (line 154). -/
structure ChatEntry where
  data : String
  sender : String
  socketId : ConnId
  deriving DecidableEq

/-- The events the server emits. -/
inductive Event
  | userJoined (id : ConnId) (members : List ConnId)
  | chatMessage (data sender : String) (socketId : ConnId)
  | userLeft (id : ConnId)
  | signal (fromId : ConnId) (message : String)
  deriving DecidableEq

/-- One `io.to(target).emit(event)`. -/
structure Emit where
  target : ConnId
  event : Event
  deriving DecidableEq

/-- The module-level state of lines 85-87 together with the durable store. -/
structure State where
  connections : List (String × List ConnId)
  messages : List (String × List ChatEntry)
  timeOnline : List (String × Nat)
  db : Durable
  deriving DecidableEq

/-- The state at start-up: the three objects are `{}`. -/
def initState (db : Durable) : State := ⟨[], [], [], db⟩

/-- The scan of lines 145-150 and 175-176: the first entry of
`Object.entries(connections)` whose member list includes the socket id. -/
def findRoom (conns : List (String × List ConnId)) (c : ConnId) :
    Option (String × List ConnId) :=
  conns.find? (fun e => e.2.contains c)

/-- Lines 118-130: the synchronous tail of `join-call`. -/
def joinRelay (s : State) (c : ConnId) (roomPath : String) (now : Nat) : State × List Emit :=
  let conns1 := ensureArray s.connections roomPath
  match getProp conns1 roomPath with
  | Lookup.own members =>
    let members2 := members ++ [c]
    let conns2 := objSet conns1 roomPath members2
    let s2 : State :=
      { s with connections := conns2, timeOnline := objSet s.timeOnline c now }
    let joined := members2.map (fun id => Emit.mk id (Event.userJoined c members2))
    match getProp s.messages roomPath with
    | Lookup.own msgs =>
      (s2, joined ++ msgs.map (fun m => Emit.mk c (Event.chatMessage m.data m.sender m.socketId)))
    | _ => (s2, joined)
  | _ => (s, [])

/-- Lines 95-134: the `join-call` handler. -/
def joinCall (s : State) (c : ConnId) (path userId : String) (f : JoinFaults) (now : Nat) :
    State × List Emit :=
  let roomId := lastSegment path
  let r := joinDurable s.db roomId userId f
  let s1 : State := { s with db := r.1 }
  if r.2 then joinRelay s1 c path now else (s1, [])

/-- Lines 136-138: the `signal` handler. -/
def signal (s : State) (c toId : ConnId) (message : String) : State × List Emit :=
  (s, [Emit.mk toId (Event.signal c message)])

/-- Lines 141-154: the synchronous head of `chat-message`: both fields are
sanitized, the room is looked up, the entry is appended to its buffer. The
second component is `roomKey` when the handler goes on to the durable calls and
`none` when it has returned (line 151) or thrown. -/
def chatAppend (sanitizeString : String → String) (s : State) (c : ConnId)
    (data sender : String) : State × Option String :=
  let data := sanitizeString data
  let sender := sanitizeString sender
  match findRoom s.connections c with
  | none => (s, none)
  | some (roomKey, _) =>
    if roomKey = "" then (s, none)
    else
      let msgs1 := ensureArray s.messages roomKey
      match getProp msgs1 roomKey with
      | Lookup.own buf =>
        ({ s with messages := objSet msgs1 roomKey (buf ++ [ChatEntry.mk data sender c]) },
          some roomKey)
      | _ => (s, none)

/-- Lines 168-170: the broadcast of `chat-message`. It runs after the awaits of
lines 157-162 and reads `connections[roomKey]` in the state `s` it then finds;
when that read is not an array `forEach` throws and nothing is emitted. The
arguments `data` and `sender` are the sanitized fields. -/
def chatBroadcast (s : State) (roomKey data sender : String) (c : ConnId) : List Emit :=
  match getProp s.connections roomKey with
  | Lookup.own members => members.map (fun id => Emit.mk id (Event.chatMessage data sender c))
  | _ => []

/-- Lines 140-171: the `chat-message` handler when no other handler runs while
it awaits its durable calls. -/
def chatMessage (sanitizeString : String → String) (s : State) (c : ConnId)
    (data sender : String) (f : ChatFaults) : State × List Emit :=
  match chatAppend sanitizeString s c data sender with
  | (s1, none) => (s1, [])
  | (s1, some roomKey) =>
    let s2 : State :=
      { s1 with
        db := chatDurable s1.db (lastSegment roomKey) (sanitizeString data)
          (sanitizeString sender) f }
    (s2, chatBroadcast s2 roomKey (sanitizeString data) (sanitizeString sender) c)

/-- Lines 173-186: the `disconnect` handler. -/
def disconnect (s : State) (c : ConnId) : State × List Emit :=
  match findRoom s.connections c with
  | some (k, v) =>
    let conns1 := objSet s.connections k (v.filter (fun id => id != c))
    let remaining := (objGet conns1 k).getD []
    let emits := remaining.map (fun id => Emit.mk id (Event.userLeft c))
    let conns2 := if remaining.length = 0 then objDelete conns1 k else conns1
    ({ s with connections := conns2, timeOnline := objDelete s.timeOnline c }, emits)
  | none => ({ s with timeOnline := objDelete s.timeOnline c }, [])

/-- An inbound socket event, with the environment choices it meets. -/
inductive Input
  | joinCall (c : ConnId) (path userId : String) (f : JoinFaults) (now : Nat)
  | signal (c toId : ConnId) (message : String)
  | chatMessage (c : ConnId) (data sender : String) (f : ChatFaults)
  | disconnect (c : ConnId)
  deriving DecidableEq

/-- Dispatch of one inbound event to its handler. -/
def step (sanitizeString : String → String) (s : State) : Input → State × List Emit
  | Input.joinCall c path userId f now => joinCall s c path userId f now
  | Input.signal c toId message => signal s c toId message
  | Input.chatMessage c data sender f => chatMessage sanitizeString s c data sender f
  | Input.disconnect c => disconnect s c

/-- The state after a sequence of inbound events. -/
def run (sanitizeString : String → String) : State → List Input → State
  | s, [] => s
  | s, ev :: evs => run sanitizeString (step sanitizeString s ev).1 evs

/-- The rooms whose member list contains the socket id. -/
def roomsOf (s : State) (c : ConnId) : List String :=
  objKeys (s.connections.filter (fun e => e.2.contains c))

/-- No `join-call` in the sequence is handled while its socket is in the member
list of a room other than the path it asks for: at each `join-call` for `path`,
every room that holds the socket is `path` itself. -/
def joinsStayInRoom (sanitizeString : String → String) : State → List Input → Bool
  | _, [] => true
  | s, ev :: evs =>
    (match ev with
      | Input.joinCall c path _ _ _ => (roomsOf s c).all (fun k => k == path)
      | _ => true) &&
    joinsStayInRoom sanitizeString (step sanitizeString s ev).1 evs

/-- Two registry entries have different keys and no socket in common. -/
def Apart (e1 e2 : String × List ConnId) : Prop :=
  e1.1 ≠ e2.1 ∧ ∀ x ∈ e1.2, x ∉ e2.2

/-- The registry has pairwise different keys and pairwise disjoint member lists. -/
def RoomsDisjoint (conns : List (String × List ConnId)) : Prop :=
  conns.Pairwise Apart

/-- What every state reached from start-up satisfies: the registry keys are
pairwise different, none of them is the name of a property of
`Object.prototype`, and a socket with a join-time record is in some member list. -/
def WellFormed (s : State) : Prop :=
  (objKeys s.connections).Nodup ∧
    (∀ k ∈ objKeys s.connections, k ∉ objectPrototypeKeys) ∧
    (∀ c t, objGet s.timeOnline c = some t → ∃ e ∈ s.connections, c ∈ e.2)

/-! ## Lemmas on objects -/

theorem objGet_objReplace_self {α : Type} (o : List (String × α)) (k : String) (v w : α)
    (h : objGet o k = some w) : objGet (objReplace o k v) k = some v := by
  induction o with
  | nil => simp [objGet] at h
  | cons e rest ih =>
    obtain ⟨k2, v2⟩ := e
    by_cases hk : k2 = k
    · simp [objReplace, objGet, hk]
    · simp only [objGet, hk, if_false] at h
      simp [objReplace, objGet, hk, ih h]

theorem objGet_objInsert_self {α : Type} (o : List (String × α)) (k : String) (v : α)
    (h : objGet o k = none) : objGet (objInsert o k v) k = some v := by
  induction o with
  | nil => simp [objInsert, objGet]
  | cons e rest ih =>
    obtain ⟨k2, v2⟩ := e
    by_cases hk : k2 = k
    · simp [objGet, hk] at h
    · simp only [objGet, hk, if_false] at h
      by_cases hb : keyBefore k k2 = true
      · simp [objInsert, objGet, hb]
      · simp [objInsert, objGet, hb, hk, ih h]

theorem objGet_objSet_self {α : Type} (o : List (String × α)) (k : String) (v : α) :
    objGet (objSet o k v) k = some v := by
  unfold objSet
  cases h : objGet o k with
  | none => exact objGet_objInsert_self o k v h
  | some w => exact objGet_objReplace_self o k v w h

theorem objGet_objReplace_of_ne {α : Type} (o : List (String × α)) (k k2 : String) (v : α)
    (h : k2 ≠ k) : objGet (objReplace o k v) k2 = objGet o k2 := by
  induction o with
  | nil => simp [objReplace]
  | cons e rest ih =>
    obtain ⟨k3, v3⟩ := e
    by_cases hk : k3 = k
    · subst hk
      have h2 : ¬ k3 = k2 := fun hh => h hh.symm
      simp [objReplace, objGet, h2]
    · by_cases hk2 : k3 = k2
      · subst hk2
        simp [objReplace, objGet, hk]
      · simp [objReplace, objGet, hk, hk2, ih]

theorem objGet_objInsert_of_ne {α : Type} (o : List (String × α)) (k k2 : String) (v : α)
    (h : k2 ≠ k) : objGet (objInsert o k v) k2 = objGet o k2 := by
  have h2 : ¬ k = k2 := fun hh => h hh.symm
  induction o with
  | nil => simp [objInsert, objGet, h2]
  | cons e rest ih =>
    obtain ⟨k3, v3⟩ := e
    by_cases hb : keyBefore k k3 = true
    · simp [objInsert, objGet, hb, h2]
    · by_cases hk2 : k3 = k2
      · subst hk2
        simp [objInsert, objGet, hb]
      · simp [objInsert, objGet, hb, hk2, ih]

theorem objGet_objSet_of_ne {α : Type} (o : List (String × α)) (k k2 : String) (v : α)
    (h : k2 ≠ k) : objGet (objSet o k v) k2 = objGet o k2 := by
  unfold objSet
  cases objGet o k with
  | none => exact objGet_objInsert_of_ne o k k2 v h
  | some w => exact objGet_objReplace_of_ne o k k2 v h

theorem objGet_objDelete_self {α : Type} (o : List (String × α)) (k : String) :
    objGet (objDelete o k) k = none := by
  induction o with
  | nil => simp [objDelete, objGet]
  | cons e rest ih =>
    obtain ⟨k2, v2⟩ := e
    by_cases hk : k2 = k
    · simpa [objDelete, List.filter_cons, hk] using ih
    · simpa [objDelete, List.filter_cons, hk, objGet] using ih

theorem objGet_objDelete_of_ne {α : Type} (o : List (String × α)) (k k2 : String)
    (h : k2 ≠ k) : objGet (objDelete o k) k2 = objGet o k2 := by
  induction o with
  | nil => simp [objDelete]
  | cons e rest ih =>
    obtain ⟨k3, v3⟩ := e
    by_cases hk : k3 = k
    · subst hk
      have h2 : ¬ k3 = k2 := fun hh => h hh.symm
      simpa [objDelete, List.filter_cons, objGet, h2] using ih
    · by_cases hk2 : k3 = k2
      · subst hk2
        simp [objDelete, List.filter_cons, objGet, hk]
      · simpa [objDelete, List.filter_cons, objGet, hk, hk2] using ih

theorem mem_of_objGet_eq_some {α : Type} (o : List (String × α)) (k : String) (v : α)
    (h : objGet o k = some v) : (k, v) ∈ o := by
  induction o with
  | nil => simp [objGet] at h
  | cons e rest ih =>
    obtain ⟨k2, v2⟩ := e
    by_cases hk : k2 = k
    · simp only [objGet, hk, if_true, Option.some.injEq] at h
      simp [hk, h]
    · simp only [objGet, hk, if_false] at h
      exact List.mem_cons_of_mem _ (ih h)

theorem objGet_eq_none_of_not_mem_keys {α : Type} (o : List (String × α)) (k : String)
    (h : k ∉ objKeys o) : objGet o k = none := by
  induction o with
  | nil => simp [objGet]
  | cons e rest ih =>
    obtain ⟨k2, v2⟩ := e
    simp only [objKeys, List.map_cons, List.mem_cons, not_or] at h
    have hk : ¬ k2 = k := fun hh => h.1 hh.symm
    simp only [objGet, hk, if_false]
    exact ih h.2

theorem not_mem_keys_of_objGet_eq_none {α : Type} (o : List (String × α)) (k : String)
    (h : objGet o k = none) : k ∉ objKeys o := by
  induction o with
  | nil => simp [objKeys]
  | cons e rest ih =>
    obtain ⟨k2, v2⟩ := e
    by_cases hk : k2 = k
    · simp [objGet, hk] at h
    · simp only [objGet, hk, if_false] at h
      simp only [objKeys, List.map_cons, List.mem_cons, not_or]
      exact ⟨fun hh => hk hh.symm, ih h⟩

theorem objGet_eq_some_of_mem {α : Type} (o : List (String × α)) (k : String) (v : α)
    (hnd : (objKeys o).Nodup) (h : (k, v) ∈ o) : objGet o k = some v := by
  induction o with
  | nil => simp at h
  | cons e rest ih =>
    obtain ⟨k2, v2⟩ := e
    simp only [objKeys, List.map_cons, List.nodup_cons] at hnd
    rcases List.mem_cons.mp h with heq | hmem
    · simp only [Prod.mk.injEq] at heq
      simp [objGet, heq.1, heq.2]
    · have hk : ¬ k2 = k := by
        intro hh
        apply hnd.1
        rw [hh]
        exact List.mem_map.mpr ⟨(k, v), hmem, rfl⟩
      simp only [objGet, hk, if_false]
      exact ih hnd.2 hmem

theorem objDelete_eq_self {α : Type} (o : List (String × α)) (k : String)
    (h : objGet o k = none) : objDelete o k = o := by
  have hk := not_mem_keys_of_objGet_eq_none o k h
  unfold objDelete
  rw [List.filter_eq_self]
  intro e he
  have : e.1 ≠ k := by
    intro hh
    apply hk
    rw [← hh]
    exact List.mem_map.mpr ⟨e, he, rfl⟩
  simpa using this

theorem findRoom_eq_none {conns : List (String × List ConnId)} {c : ConnId}
    (h : ∀ e ∈ conns, c ∉ e.2) : findRoom conns c = none := by
  unfold findRoom
  rw [List.find?_eq_none]
  intro e he
  simpa using h e he

theorem findRoom_some_mem {conns : List (String × List ConnId)} {c : ConnId} {k : String}
    {v : List ConnId} (h : findRoom conns c = some (k, v)) : (k, v) ∈ conns ∧ c ∈ v := by
  unfold findRoom at h
  refine ⟨List.mem_of_find?_eq_some h, ?_⟩
  have := List.find?_some h
  simpa using this


theorem getProp_of_objGet_eq_some {α : Type} (o : List (String × α)) (k : String) (v : α)
    (h : objGet o k = some v) : getProp o k = Lookup.own v := by
  simp [getProp, h]

theorem getProp_ensureArray {α : Type} (o : List (String × List α)) (k : String)
    (hk : k ∉ objectPrototypeKeys) :
    getProp (ensureArray o k) k = Lookup.own ((objGet o k).getD []) := by
  unfold ensureArray
  cases h : objGet o k with
  | none =>
    have h1 : getProp o k = Lookup.undefined := by simp [getProp, h, hk]
    rw [h1]
    simp [getProp, objGet_objSet_self]
  | some v =>
    have h1 : getProp o k = Lookup.own v := by simp [getProp, h]
    rw [h1]
    simp [h1]

theorem objGet_ensureArray_of_ne {α : Type} (o : List (String × List α)) (k k2 : String)
    (h : k2 ≠ k) : objGet (ensureArray o k) k2 = objGet o k2 := by
  unfold ensureArray
  cases getProp o k with
  | own v => rfl
  | inherited => rfl
  | undefined => exact objGet_objSet_of_ne o k k2 [] h

/-! ## The handlers -/

theorem chatAppend_cases (sanitizeString : String → String) (s : State) (c : ConnId)
    (data sender : String) :
    chatAppend sanitizeString s c data sender = (s, none) ∨
      ∃ r ms buf, findRoom s.connections c = some (r, ms) ∧ r ≠ "" ∧
        getProp (ensureArray s.messages r) r = Lookup.own buf ∧
        chatAppend sanitizeString s c data sender =
          ({ s with
              messages := objSet (ensureArray s.messages r) r
                (buf ++ [ChatEntry.mk (sanitizeString data) (sanitizeString sender) c]) },
            some r) := by
  unfold chatAppend
  cases hf : findRoom s.connections c with
  | none => left; rfl
  | some e =>
    obtain ⟨r, ms⟩ := e
    by_cases hr : r = ""
    · left
      simp [hr]
    · simp only [hr, if_false]
      cases h1 : getProp (ensureArray s.messages r) r with
      | own buf =>
        right
        exact ⟨r, ms, buf, rfl, hr, h1, rfl⟩
      | inherited => left; rfl
      | undefined => left; rfl

theorem chatMessage_cases (sanitizeString : String → String) (s : State) (c : ConnId)
    (data sender : String) (f : ChatFaults) :
    chatMessage sanitizeString s c data sender f = (s, []) ∨
      ∃ r ms msgs, findRoom s.connections c = some (r, ms) ∧ r ≠ "" ∧
        chatMessage sanitizeString s c data sender f =
          ({ s with
              messages := msgs,
              db := chatDurable s.db (lastSegment r) (sanitizeString data)
                (sanitizeString sender) f },
            chatBroadcast
              { s with
                messages := msgs,
                db := chatDurable s.db (lastSegment r) (sanitizeString data)
                  (sanitizeString sender) f }
              r (sanitizeString data) (sanitizeString sender) c) := by
  unfold chatMessage
  rcases chatAppend_cases sanitizeString s c data sender with h | ⟨r, ms, buf, hf, hr, _, h⟩
  · left
    rw [h]
  · right
    rw [h]
    exact ⟨r, ms, _, hf, hr, rfl⟩

theorem chatBroadcast_eq (s : State) (r data sender : String) (c : ConnId) :
    chatBroadcast s r data sender c =
      ((objGet s.connections r).getD []).map
        (fun id => Emit.mk id (Event.chatMessage data sender c)) := by
  unfold chatBroadcast getProp
  cases objGet s.connections r with
  | some ms => rfl
  | none =>
    by_cases hk : r ∈ objectPrototypeKeys
    · simp [hk]
    · simp [hk]

/-- The relay tail of `join-call` on a path that does not name a property of
`Object.prototype`. -/
theorem joinRelay_eq (s : State) (c : ConnId) (p : String) (now : Nat)
    (hp : p ∉ objectPrototypeKeys) :
    joinRelay s c p now =
      ({ s with
          connections :=
            objSet (ensureArray s.connections p) p ((objGet s.connections p).getD [] ++ [c]),
          timeOnline := objSet s.timeOnline c now },
        ((objGet s.connections p).getD [] ++ [c]).map
            (fun id => Emit.mk id
              (Event.userJoined c ((objGet s.connections p).getD [] ++ [c]))) ++
          ((objGet s.messages p).getD []).map
            (fun m => Emit.mk c (Event.chatMessage m.data m.sender m.socketId))) := by
  unfold joinRelay
  simp only [getProp_ensureArray s.connections p hp]
  cases h : objGet s.messages p with
  | none => simp [getProp, h, hp]
  | some msgs => simp [getProp, h]

/-- C7: a `chat-message` from a socket that is in no member list emits nothing
and leaves the whole state (registry, chat buffers, durable records) as it was. -/
theorem chatMessage_from_outsider_is_dropped (sanitizeString : String → String) (s : State)
    (c : ConnId) (data sender : String) (f : ChatFaults)
    (h : ∀ e ∈ s.connections, c ∉ e.2) :
    chatMessage sanitizeString s c data sender f = (s, []) := by
  simp [chatMessage, chatAppend, findRoom_eq_none h]

/-- Witness for C7: socket `b` is not in the only room. -/
theorem chatMessage_from_outsider_is_dropped_witness :
    chatMessage id ⟨[("room/abcde", ["a"])], [], [], ⟨[], [], []⟩⟩ "b" "hi" "bob" noChatFaults
      = (⟨[("room/abcde", ["a"])], [], [], ⟨[], [], []⟩⟩, []) :=
  chatMessage_from_outsider_is_dropped id ⟨[("room/abcde", ["a"])], [], [], ⟨[], [], []⟩⟩
    "b" "hi" "bob" noChatFaults (by decide)

theorem findRoom_of_unique (conns : List (String × List ConnId)) (c : ConnId) (r : String)
    (ms : List ConnId) (hnd : (objKeys conns).Nodup) (hget : objGet conns r = some ms)
    (hc : c ∈ ms)
    (huniq : ∀ e ∈ conns, e.1 ≠ r → c ∉ e.2) :
    findRoom conns c = some (r, ms) := by
  cases hf : findRoom conns c with
  | none =>
    exfalso
    unfold findRoom at hf
    rw [List.find?_eq_none] at hf
    have := hf (r, ms) (mem_of_objGet_eq_some conns r ms hget)
    simp [hc] at this
  | some e =>
    obtain ⟨k, v⟩ := e
    obtain ⟨hmem, hcv⟩ := findRoom_some_mem hf
    have hk := objGet_eq_some_of_mem conns k v hnd hmem
    by_cases hkr : k = r
    · subst hkr
      rw [hk] at hget
      simp only [Option.some.injEq] at hget
      rw [hget]
    · exact absurd hcv (huniq (k, v) hmem hkr)

/-- C5: when a socket is a member of exactly one room, `disconnect` replaces
that room's member list by the same list without the socket (order kept),
leaves the member list of every other room as it was, and removes the room's
entry exactly when that list has become empty; when the socket is a member of
no room the room registry is unchanged (so are the chat buffers and the durable
store, nothing is emitted, and only the socket's join-time record is deleted). -/
theorem disconnect_leaves_exactly_its_room (s : State) (c : ConnId)
    (hnd : (objKeys s.connections).Nodup) :
    (∀ r ms, objGet s.connections r = some ms → c ∈ ms →
        (∀ e ∈ s.connections, e.1 ≠ r → c ∉ e.2) →
        objGet (disconnect s c).1.connections r =
            (if ms.filter (fun id => id != c) = [] then none
             else some (ms.filter (fun id => id != c))) ∧
          (∀ r2, r2 ≠ r →
            objGet (disconnect s c).1.connections r2 = objGet s.connections r2)) ∧
    ((∀ e ∈ s.connections, c ∉ e.2) →
        (disconnect s c).1.connections = s.connections ∧
          (disconnect s c).1.messages = s.messages ∧
          (disconnect s c).1.db = s.db ∧
          (disconnect s c).1.timeOnline = objDelete s.timeOnline c ∧
          (disconnect s c).2 = [] ∧
          (objGet s.timeOnline c = none → (disconnect s c).1 = s)) := by
  constructor
  · intro r ms hget hc huniq
    have hf := findRoom_of_unique s.connections c r ms hnd hget hc huniq
    unfold disconnect
    rw [hf]
    simp only [objGet_objSet_self, Option.getD_some]
    by_cases hempty : ms.filter (fun id => id != c) = []
    · simp only [hempty, List.length_nil, if_true]
      refine ⟨objGet_objDelete_self _ _, ?_⟩
      intro r2 hr2
      rw [objGet_objDelete_of_ne _ _ _ hr2, objGet_objSet_of_ne _ _ _ _ hr2]
    · have hlen : ¬ (ms.filter (fun id => id != c)).length = 0 := by
        intro hh
        exact hempty (List.length_eq_zero.mp hh)
      simp only [hlen, hempty, if_false]
      refine ⟨objGet_objSet_self _ _ _, ?_⟩
      intro r2 hr2
      exact objGet_objSet_of_ne _ _ _ _ hr2
  · intro hout
    have hnone : findRoom s.connections c = none := findRoom_eq_none hout
    unfold disconnect
    rw [hnone]
    refine ⟨rfl, rfl, rfl, rfl, rfl, ?_⟩
    intro ht
    simp only [objDelete_eq_self s.timeOnline c ht]

/-- Witness for C5: `b` leaves the two-member room, `a` stays, the other room is
as before. -/
theorem disconnect_leaves_exactly_its_room_witness :
    objGet (disconnect ⟨[("x/r1", ["a", "b"]), ("x/r2", ["d"])], [], [], ⟨[], [], []⟩⟩
        "b").1.connections "x/r1" = some ["a"] ∧
      objGet (disconnect ⟨[("x/r1", ["a", "b"]), ("x/r2", ["d"])], [], [], ⟨[], [], []⟩⟩
        "b").1.connections "x/r2" = some ["d"] ∧
      (disconnect ⟨[("x/r1", ["a", "b"]), ("x/r2", ["d"])], [], [], ⟨[], [], []⟩⟩
        "z").1.connections = [("x/r1", ["a", "b"]), ("x/r2", ["d"])] := by
  have h := (disconnect_leaves_exactly_its_room
    ⟨[("x/r1", ["a", "b"]), ("x/r2", ["d"])], [], [], ⟨[], [], []⟩⟩ "b" (by decide)).1
    "x/r1" ["a", "b"] (by decide) (by decide) (by decide)
  have h2 := (disconnect_leaves_exactly_its_room
    ⟨[("x/r1", ["a", "b"]), ("x/r2", ["d"])], [], [], ⟨[], [], []⟩⟩ "z" (by decide)).2
    (by decide)
  exact ⟨h.1, h.2 "x/r2" (by decide), h2.1⟩


theorem joinCall_of_ok (s : State) (c : ConnId) (p userId : String) (f : JoinFaults) (now : Nat)
    (hok : (joinDurable s.db (lastSegment p) userId f).2 = true) :
    joinCall s c p userId f now =
      joinRelay { s with db := (joinDurable s.db (lastSegment p) userId f).1 } c p now := by
  simp [joinCall, hok]

theorem joinCall_of_fault (s : State) (c : ConnId) (p userId : String) (f : JoinFaults)
    (now : Nat) (hbad : (joinDurable s.db (lastSegment p) userId f).2 = false) :
    joinCall s c p userId f now =
      ({ s with db := (joinDurable s.db (lastSegment p) userId f).1 }, []) := by
  simp [joinCall, hbad]

theorem disconnect_messages (s : State) (c : ConnId) :
    (disconnect s c).1.messages = s.messages := by
  unfold disconnect
  cases findRoom s.connections c with
  | none => rfl
  | some e => rfl

theorem joinCall_ok_eq (s : State) (c : ConnId) (p userId : String) (f : JoinFaults) (now : Nat)
    (hok : (joinDurable s.db (lastSegment p) userId f).2 = true)
    (hp : p ∉ objectPrototypeKeys) :
    joinCall s c p userId f now =
      ({ s with
          db := (joinDurable s.db (lastSegment p) userId f).1,
          connections :=
            objSet (ensureArray s.connections p) p ((objGet s.connections p).getD [] ++ [c]),
          timeOnline := objSet s.timeOnline c now },
        ((objGet s.connections p).getD [] ++ [c]).map
            (fun id => Emit.mk id
              (Event.userJoined c ((objGet s.connections p).getD [] ++ [c]))) ++
          ((objGet s.messages p).getD []).map
            (fun m => Emit.mk c (Event.chatMessage m.data m.sender m.socketId))) := by
  rw [joinCall_of_ok s c p userId f now hok, joinRelay_eq _ c p now hp]

/-- C10 (amended): a `join-call` on a path that is not the name of a property of
`Object.prototype`, whose durable calls succeed, makes the member list of the
path `M = previous members ++ [c]` (`[c]` when the path had no entry), leaves
the other rooms alone, and emits `user-joined(c, M)` once per entry of `M`, in
order, followed only by the chat replay to `c`; so a socket receives it as many
times as it occurs in `M`, and the joiner is among the receivers. -/
theorem joinCall_broadcasts_roster (s : State) (c : ConnId) (p userId : String)
    (f : JoinFaults) (now : Nat)
    (hok : (joinDurable s.db (lastSegment p) userId f).2 = true)
    (hp : p ∉ objectPrototypeKeys) :
    objGet (joinCall s c p userId f now).1.connections p =
        some ((objGet s.connections p).getD [] ++ [c]) ∧
      (∀ r, r ≠ p →
        objGet (joinCall s c p userId f now).1.connections r = objGet s.connections r) ∧
      (joinCall s c p userId f now).2 =
        ((objGet s.connections p).getD [] ++ [c]).map
            (fun id => Emit.mk id
              (Event.userJoined c ((objGet s.connections p).getD [] ++ [c]))) ++
          ((objGet s.messages p).getD []).map
            (fun m => Emit.mk c (Event.chatMessage m.data m.sender m.socketId)) ∧
      (∀ id, List.count
          (Emit.mk id (Event.userJoined c ((objGet s.connections p).getD [] ++ [c])))
          (joinCall s c p userId f now).2 =
        List.count id ((objGet s.connections p).getD [] ++ [c])) ∧
      c ∈ (objGet s.connections p).getD [] ++ [c] ∧
      (objGet s.connections p = none →
        objGet (joinCall s c p userId f now).1.connections p = some [c]) := by
  rw [joinCall_ok_eq s c p userId f now hok hp]
  refine ⟨objGet_objSet_self _ _ _, ?_, rfl, ?_, by simp, ?_⟩
  · intro r hr
    simp only
    rw [objGet_objSet_of_ne _ _ _ _ hr, objGet_ensureArray_of_ne _ _ _ hr]
  · intro id
    simp only
    rw [List.count_append]
    have h1 : List.count
        (Emit.mk id (Event.userJoined c ((objGet s.connections p).getD [] ++ [c])))
        (((objGet s.messages p).getD []).map
          (fun m => Emit.mk c (Event.chatMessage m.data m.sender m.socketId))) = 0 := by
      rw [List.count_eq_zero]
      intro hmem
      obtain ⟨m, _, hm⟩ := List.mem_map.mp hmem
      simp at hm
    rw [h1, Nat.add_zero]
    exact List.count_map_of_injective _
      (fun id => Emit.mk id (Event.userJoined c ((objGet s.connections p).getD [] ++ [c])))
      (fun a b hab => by simpa using hab) id
  · intro hnone
    simp only [hnone, Option.getD_none, List.nil_append]
    exact objGet_objSet_self _ _ _

/-- Witness for C10: `b` joins the room that holds `a`. -/
theorem joinCall_broadcasts_roster_witness :
    (joinCall ⟨[("x/abcde", ["a"])], [], [], ⟨[], [], []⟩⟩ "b" "x/abcde" "u2"
        noJoinFaults 7).2 =
      [Emit.mk "a" (Event.userJoined "b" ["a", "b"]),
       Emit.mk "b" (Event.userJoined "b" ["a", "b"])] :=
  (joinCall_broadcasts_roster ⟨[("x/abcde", ["a"])], [], [], ⟨[], [], []⟩⟩ "b" "x/abcde" "u2"
    noJoinFaults 7 (by decide) (by decide)).2.2.1

/-- C10 fails as stated: when the joiner is already in the member list the
roster is sent to it twice, and on the path `constructor` nothing is sent and
no room is created. -/
theorem joinCall_roster_counterexample :
    (joinCall ⟨[("x/abcde", ["a"])], [], [], ⟨[], [], []⟩⟩ "a" "x/abcde" "u1"
        noJoinFaults 7).2 =
      [Emit.mk "a" (Event.userJoined "a" ["a", "a"]),
       Emit.mk "a" (Event.userJoined "a" ["a", "a"])] ∧
    (joinDurable (initState ⟨[], [], []⟩).db (lastSegment "constructor") "u1"
        noJoinFaults).2 = true ∧
    joinCall (initState ⟨[], [], []⟩) "a" "constructor" "u1" noJoinFaults 7 =
      (initState ⟨[], [], []⟩, []) := by
  decide


/-- C2 (amended): `join-call` is not idempotent. On a path that is not the name
of a property of `Object.prototype`, two successive `join-call`s of the same
socket whose durable calls succeed leave the room with the member list of one
`join-call` followed by one more occurrence of the socket: the socket occurs
once more than after one join, at least twice, and the list has a duplicate. -/
theorem joinCall_twice_appends_twice (s : State) (c : ConnId) (p u1 u2 : String)
    (f1 f2 : JoinFaults) (n1 n2 : Nat)
    (hp : p ∉ objectPrototypeKeys)
    (hok1 : (joinDurable s.db (lastSegment p) u1 f1).2 = true)
    (hok2 : (joinDurable (joinCall s c p u1 f1 n1).1.db (lastSegment p) u2 f2).2 = true) :
    objGet (joinCall s c p u1 f1 n1).1.connections p =
        some ((objGet s.connections p).getD [] ++ [c]) ∧
      objGet (joinCall (joinCall s c p u1 f1 n1).1 c p u2 f2 n2).1.connections p =
        some (((objGet s.connections p).getD [] ++ [c]) ++ [c]) ∧
      List.count c (((objGet s.connections p).getD [] ++ [c]) ++ [c]) =
        List.count c ((objGet s.connections p).getD [] ++ [c]) + 1 ∧
      2 ≤ List.count c (((objGet s.connections p).getD [] ++ [c]) ++ [c]) ∧
      ¬ (((objGet s.connections p).getD [] ++ [c]) ++ [c]).Nodup := by
  have h1 : objGet (joinCall s c p u1 f1 n1).1.connections p =
      some ((objGet s.connections p).getD [] ++ [c]) := by
    rw [joinCall_ok_eq s c p u1 f1 n1 hok1 hp]
    exact objGet_objSet_self _ _ _
  have h2 : objGet (joinCall (joinCall s c p u1 f1 n1).1 c p u2 f2 n2).1.connections p =
      some (((objGet s.connections p).getD [] ++ [c]) ++ [c]) := by
    rw [joinCall_ok_eq (joinCall s c p u1 f1 n1).1 c p u2 f2 n2 hok2 hp]
    simp only [h1, Option.getD_some]
    exact objGet_objSet_self _ _ _
  have hcount : 2 ≤ List.count c (((objGet s.connections p).getD [] ++ [c]) ++ [c]) := by
    simp [List.count_append]
  refine ⟨h1, h2, by simp [List.count_append], hcount, ?_⟩
  intro hnd
  have := List.nodup_iff_count_le_one.mp hnd c
  omega

/-- Witness for C2: from the empty registry the second join of `a` gives `[a, a]`. -/
theorem joinCall_twice_appends_twice_witness :
    objGet (joinCall (joinCall (initState ⟨[], [], []⟩) "a" "x/abcde" "u1" noJoinFaults 1).1
        "a" "x/abcde" "u1" noJoinFaults 2).1.connections "x/abcde" = some ["a", "a"] :=
  (joinCall_twice_appends_twice (initState ⟨[], [], []⟩) "a" "x/abcde" "u1" "u1"
    noJoinFaults noJoinFaults 1 2 (by decide) (by decide) (by decide)).2.1

/-- C2 fails as stated: joining the same path with the same socket twice gives
`[a, a]`, joining once gives `[a]`. -/
theorem joinCall_idempotent_counterexample :
    objGet (joinCall (initState ⟨[], [], []⟩) "a" "x/abcde" "u1" noJoinFaults 1).1.connections
        "x/abcde" = some ["a"] ∧
      objGet (joinCall (joinCall (initState ⟨[], [], []⟩) "a" "x/abcde" "u1" noJoinFaults 1).1
        "a" "x/abcde" "u1" noJoinFaults 2).1.connections "x/abcde" = some ["a", "a"] ∧
      ¬ (["a", "a"] : List ConnId).Nodup := by
  decide

/-- C3, evaluated at the failing input: when `User.findOne` rejects, the
`join-call` changes nothing and emits nothing, while the same event with working
durable calls puts `a` into the room and broadcasts `user-joined`. -/
theorem joinCall_durable_failure_aborts :
    joinCall (initState ⟨[], [], []⟩) "a" "x/abcde" "u1" ⟨true, false, false, false, false⟩ 1 =
        (initState ⟨[], [], []⟩, []) ∧
      objGet (joinCall (initState ⟨[], [], []⟩) "a" "x/abcde" "u1" noJoinFaults 1).1.connections
        "x/abcde" = some ["a"] ∧
      (joinCall (initState ⟨[], [], []⟩) "a" "x/abcde" "u1" noJoinFaults 1).2 =
        [Emit.mk "a" (Event.userJoined "a" ["a"])] := by
  decide

/-- C4 (amended): `disconnect` never touches the chat buffers. Whatever the
member list of room `R` (in particular when the leaving socket was its only
member), the buffer of `R` is the same after the `disconnect`, and a `join-call`
to `R` that follows, with working durable calls, replays every buffered entry
to the joiner, in order, after the `user-joined` broadcast. -/
theorem disconnect_keeps_chat_history (s : State) (c d : ConnId) (R userId : String)
    (buf : List ChatEntry) (f : JoinFaults) (now : Nat)
    (hbuf : objGet s.messages R = some buf)
    (hR : R ∉ objectPrototypeKeys)
    (hok : (joinDurable (disconnect s c).1.db (lastSegment R) userId f).2 = true) :
    objGet (disconnect s c).1.messages R = some buf ∧
      (joinCall (disconnect s c).1 d R userId f now).2 =
        ((objGet (disconnect s c).1.connections R).getD [] ++ [d]).map
            (fun id => Emit.mk id
              (Event.userJoined d ((objGet (disconnect s c).1.connections R).getD [] ++ [d]))) ++
          buf.map (fun m => Emit.mk d (Event.chatMessage m.data m.sender m.socketId)) := by
  have hm : objGet (disconnect s c).1.messages R = some buf := by
    rw [disconnect_messages]
    exact hbuf
  refine ⟨hm, ?_⟩
  rw [joinCall_ok_eq (disconnect s c).1 d R userId f now hok hR]
  simp only [hm, Option.getD_some]

/-- Witness for C4: `a` was alone in the room and had said "hi"; after its
disconnect the room entry is gone, and `b` joining gets the roster and "hi". -/
theorem disconnect_keeps_chat_history_witness :
    objGet (disconnect ⟨[("x/abcde", ["a"])], [("x/abcde", [⟨"hi", "u1", "a"⟩])], [],
        ⟨[], [], []⟩⟩ "a").1.messages "x/abcde" = some [⟨"hi", "u1", "a"⟩] ∧
      (joinCall (disconnect ⟨[("x/abcde", ["a"])], [("x/abcde", [⟨"hi", "u1", "a"⟩])], [],
        ⟨[], [], []⟩⟩ "a").1 "b" "x/abcde" "u2" noJoinFaults 9).2 =
      [Emit.mk "b" (Event.userJoined "b" ["b"]), Emit.mk "b" (Event.chatMessage "hi" "u1" "a")] :=
  disconnect_keeps_chat_history
    ⟨[("x/abcde", ["a"])], [("x/abcde", [⟨"hi", "u1", "a"⟩])], [], ⟨[], [], []⟩⟩
    "a" "b" "x/abcde" "u2" [⟨"hi", "u1", "a"⟩] noJoinFaults 9 (by decide) (by decide) (by decide)

/-- C4 fails as stated: `a` joins, says "hi" and disconnects; the room entry is
removed but the buffer is not, and `b` joining afterwards is sent "hi". -/
theorem last_disconnect_history_counterexample :
    objGet (run id (initState ⟨[], [], []⟩)
        [Input.joinCall "a" "x/abcde" "u1" noJoinFaults 1,
         Input.chatMessage "a" "hi" "u1" noChatFaults]).connections "x/abcde" = some ["a"] ∧
      objGet (run id (initState ⟨[], [], []⟩)
        [Input.joinCall "a" "x/abcde" "u1" noJoinFaults 1,
         Input.chatMessage "a" "hi" "u1" noChatFaults,
         Input.disconnect "a"]).connections "x/abcde" = none ∧
      objGet (run id (initState ⟨[], [], []⟩)
        [Input.joinCall "a" "x/abcde" "u1" noJoinFaults 1,
         Input.chatMessage "a" "hi" "u1" noChatFaults,
         Input.disconnect "a"]).messages "x/abcde" = some [⟨"hi", "u1", "a"⟩] ∧
      (joinCall (run id (initState ⟨[], [], []⟩)
        [Input.joinCall "a" "x/abcde" "u1" noJoinFaults 1,
         Input.chatMessage "a" "hi" "u1" noChatFaults,
         Input.disconnect "a"]) "b" "x/abcde" "u2" noJoinFaults 9).2 =
      [Emit.mk "b" (Event.userJoined "b" ["b"]), Emit.mk "b" (Event.chatMessage "hi" "u1" "a")] := by
  decide


/-- The `chat-message` handler on the room the scan finds, when that room is
neither the empty string nor the name of a property of `Object.prototype`. -/
theorem chatMessage_eq (sanitizeString : String → String) (s : State) (c : ConnId)
    (data sender : String) (f : ChatFaults) (r : String) (ms : List ConnId)
    (hnd : (objKeys s.connections).Nodup)
    (hroom : findRoom s.connections c = some (r, ms))
    (hne : r ≠ "") (hr : r ∉ objectPrototypeKeys) :
    chatMessage sanitizeString s c data sender f =
      ({ s with
          messages := objSet (ensureArray s.messages r) r
            ((objGet s.messages r).getD [] ++
              [ChatEntry.mk (sanitizeString data) (sanitizeString sender) c]),
          db := chatDurable s.db (lastSegment r) (sanitizeString data) (sanitizeString sender) f },
        ms.map (fun id =>
          Emit.mk id (Event.chatMessage (sanitizeString data) (sanitizeString sender) c))) := by
  have hget : objGet s.connections r = some ms :=
    objGet_eq_some_of_mem s.connections r ms hnd (findRoom_some_mem hroom).1
  unfold chatMessage chatAppend
  simp only [hroom, hne, if_false, getProp_ensureArray s.messages r hr, chatBroadcast_eq,
    hget, Option.getD_some]

theorem chatAppend_eq (sanitizeString : String → String) (s : State) (c : ConnId)
    (data sender : String) (r : String) (ms : List ConnId)
    (hroom : findRoom s.connections c = some (r, ms))
    (hne : r ≠ "") (hr : r ∉ objectPrototypeKeys) :
    chatAppend sanitizeString s c data sender =
      ({ s with
          messages := objSet (ensureArray s.messages r) r
            ((objGet s.messages r).getD [] ++
              [ChatEntry.mk (sanitizeString data) (sanitizeString sender) c]) },
        some r) := by
  unfold chatAppend
  simp only [hroom, hne, if_false, getProp_ensureArray s.messages r hr]

/-- C6 (amended): let `r` be the first room, in the order `Object.entries` lists
the registry, whose member list contains the sending socket `c`, and let `r` be
neither the empty string nor the name of a property of `Object.prototype`.
On entry, before any durable call, `chat-message(content, sender)` from `c`
appends exactly the entry (sanitized content, sanitized sender, `c`) at the end
of the buffer of `r` and leaves the other buffers and the registry as they
were. The broadcast runs after the durable calls were awaited: in whatever
state `s2` it runs, it emits `chat-message(sanitized content, sanitized sender,
c)` once per entry of the member list `r` has in `s2`, in member-list order,
and nothing else, and it emits nothing when `r` has no entry in `s2`. When no
other handler runs in between, the handler as a whole keeps the registry, has
appended the one entry, and emits once per entry of the member list `r` had on
entry; this for every outcome of the durable calls. -/
theorem chatMessage_appends_then_broadcasts (sanitizeString : String → String) (s : State)
    (c : ConnId) (data sender : String) (f : ChatFaults) (r : String) (ms : List ConnId)
    (hnd : (objKeys s.connections).Nodup)
    (hroom : findRoom s.connections c = some (r, ms))
    (hne : r ≠ "") (hr : r ∉ objectPrototypeKeys) :
    objGet s.connections r = some ms ∧ c ∈ ms ∧
      (chatAppend sanitizeString s c data sender).2 = some r ∧
      objGet (chatAppend sanitizeString s c data sender).1.messages r =
        some ((objGet s.messages r).getD [] ++
          [ChatEntry.mk (sanitizeString data) (sanitizeString sender) c]) ∧
      (∀ r2, r2 ≠ r →
        objGet (chatAppend sanitizeString s c data sender).1.messages r2 =
          objGet s.messages r2) ∧
      (chatAppend sanitizeString s c data sender).1.connections = s.connections ∧
      (∀ (s2 : State) (ms2 : List ConnId), objGet s2.connections r = some ms2 →
        chatBroadcast s2 r (sanitizeString data) (sanitizeString sender) c =
          ms2.map (fun id =>
            Emit.mk id (Event.chatMessage (sanitizeString data) (sanitizeString sender) c))) ∧
      (∀ s2 : State, objGet s2.connections r = none →
        chatBroadcast s2 r (sanitizeString data) (sanitizeString sender) c = []) ∧
      (chatMessage sanitizeString s c data sender f).1.messages =
        (chatAppend sanitizeString s c data sender).1.messages ∧
      (chatMessage sanitizeString s c data sender f).1.connections = s.connections ∧
      (chatMessage sanitizeString s c data sender f).2 =
        ms.map (fun id =>
          Emit.mk id (Event.chatMessage (sanitizeString data) (sanitizeString sender) c)) := by
  rw [chatMessage_eq sanitizeString s c data sender f r ms hnd hroom hne hr,
    chatAppend_eq sanitizeString s c data sender r ms hroom hne hr]
  refine ⟨objGet_eq_some_of_mem s.connections r ms hnd (findRoom_some_mem hroom).1,
    (findRoom_some_mem hroom).2, rfl, objGet_objSet_self _ _ _, ?_, rfl, ?_, ?_, rfl, rfl, rfl⟩
  · intro r2 hr2
    simp only
    rw [objGet_objSet_of_ne _ _ _ _ hr2, objGet_ensureArray_of_ne _ _ _ hr2]
  · intro s2 ms2 h2
    rw [chatBroadcast_eq, h2]
    rfl
  · intro s2 h2
    rw [chatBroadcast_eq, h2]
    rfl

/-- Witness for C6: `a` speaks in the room it shares with `b`. Run alone, the
handler appends the entry and emits to `a` and `b`; if `b` has disconnected by
the time of the broadcast, only `a` is sent the message. -/
theorem chatMessage_appends_then_broadcasts_witness :
    objGet (chatMessage id ⟨[("x/abcde", ["a", "b"])], [], [], ⟨[], [], []⟩⟩ "a" "hello" "u1"
        noChatFaults).1.messages "x/abcde" = some [⟨"hello", "u1", "a"⟩] ∧
      (chatMessage id ⟨[("x/abcde", ["a", "b"])], [], [], ⟨[], [], []⟩⟩ "a" "hello" "u1"
        noChatFaults).2 =
      [Emit.mk "a" (Event.chatMessage "hello" "u1" "a"),
       Emit.mk "b" (Event.chatMessage "hello" "u1" "a")] ∧
      chatBroadcast
        (disconnect (chatAppend id ⟨[("x/abcde", ["a", "b"])], [], [], ⟨[], [], []⟩⟩
          "a" "hello" "u1").1 "b").1 "x/abcde" "hello" "u1" "a" =
      [Emit.mk "a" (Event.chatMessage "hello" "u1" "a")] := by
  have h := chatMessage_appends_then_broadcasts id
    ⟨[("x/abcde", ["a", "b"])], [], [], ⟨[], [], []⟩⟩ "a" "hello" "u1" noChatFaults
    "x/abcde" ["a", "b"] (by decide) (by decide) (by decide) (by decide)
  have hb := h.2.2.2.2.2.2.1
    (disconnect (chatAppend id ⟨[("x/abcde", ["a", "b"])], [], [], ⟨[], [], []⟩⟩
      "a" "hello" "u1").1 "b").1 ["a"] (by decide)
  have hm : objGet (chatMessage id ⟨[("x/abcde", ["a", "b"])], [], [], ⟨[], [], []⟩⟩ "a"
      "hello" "u1" noChatFaults).1.messages "x/abcde" = some [⟨"hello", "u1", "a"⟩] := by
    rw [h.2.2.2.2.2.2.2.2.1]
    exact h.2.2.2.1
  exact ⟨hm, h.2.2.2.2.2.2.2.2.2.2, hb⟩

/-- C6 fails as stated. After `a` joined `x/r1` and then `x/r2`, where `b` is
too, `a` is a member of `x/r2`, but its chat goes to `x/r1` only: the buffer of
`x/r2` stays absent and `b` is sent nothing. And a member of the room whose
path is the empty string has its chat dropped. -/
theorem chatMessage_member_counterexample :
    (run id (initState ⟨[], [], []⟩)
        [Input.joinCall "a" "x/r1" "u1" noJoinFaults 1,
         Input.joinCall "a" "x/r2" "u1" noJoinFaults 2,
         Input.joinCall "b" "x/r2" "u2" noJoinFaults 3]).connections =
        [("x/r1", ["a"]), ("x/r2", ["a", "b"])] ∧
      (chatMessage id ⟨[("x/r1", ["a"]), ("x/r2", ["a", "b"])], [], [], ⟨[], [], []⟩⟩
        "a" "hello" "u1" noChatFaults).2 = [Emit.mk "a" (Event.chatMessage "hello" "u1" "a")] ∧
      objGet (chatMessage id ⟨[("x/r1", ["a"]), ("x/r2", ["a", "b"])], [], [], ⟨[], [], []⟩⟩
        "a" "hello" "u1" noChatFaults).1.messages "x/r2" = none ∧
      (run id (initState ⟨[], [], []⟩)
        [Input.joinCall "a" "" "u1" noJoinFaults 1]).connections = [("", ["a"])] ∧
      chatMessage id ⟨[("", ["a"])], [], [], ⟨[], [], []⟩⟩ "a" "hello" "u1" noChatFaults =
        (⟨[("", ["a"])], [], [], ⟨[], [], []⟩⟩, []) := by
  decide

/-- C8, evaluated at the failing input: `a` joined and said "hi"; when `b` then
sends `join-call` for the same path and `User.findOne` rejects, `b` is sent
nothing although the buffer holds one entry, while with working durable calls
`b` is sent the roster and then the buffered "hi". -/
theorem joinCall_replay_lost_on_durable_failure :
    objGet (run id (initState ⟨[], [], []⟩)
        [Input.joinCall "a" "x/abcde" "u1" noJoinFaults 1,
         Input.chatMessage "a" "hi" "u1" noChatFaults]).messages "x/abcde" =
        some [⟨"hi", "u1", "a"⟩] ∧
      (joinCall (run id (initState ⟨[], [], []⟩)
        [Input.joinCall "a" "x/abcde" "u1" noJoinFaults 1,
         Input.chatMessage "a" "hi" "u1" noChatFaults])
        "b" "x/abcde" "u2" ⟨true, false, false, false, false⟩ 2).2 = [] ∧
      (joinCall (run id (initState ⟨[], [], []⟩)
        [Input.joinCall "a" "x/abcde" "u1" noJoinFaults 1,
         Input.chatMessage "a" "hi" "u1" noChatFaults])
        "b" "x/abcde" "u2" noJoinFaults 2).2 =
      [Emit.mk "a" (Event.userJoined "b" ["a", "b"]),
       Emit.mk "b" (Event.userJoined "b" ["a", "b"]),
       Emit.mk "b" (Event.chatMessage "hi" "u1" "a")] := by
  decide


/-! ## Durable records and the five-character rule -/

theorem length_replaceFirst {α : Type} (p : α → Bool) (new : α) (l : List α) :
    (replaceFirst p new l).length = l.length := by
  induction l with
  | nil => rfl
  | cons x rest ih =>
    by_cases hx : p x = true
    · simp [replaceFirst, hx]
    · simp [replaceFirst, hx, ih]

theorem joinUserPhase_off_code (db : Durable) (roomId userId : String) (f : JoinFaults)
    (h : utf16Length roomId ≠ 5) : (joinUserPhase db roomId userId f).1 = db := by
  unfold joinUserPhase
  by_cases hf : f.userFind = true
  · simp [hf]
  · cases hu : findUser db userId with
    | none => simp [hf]
    | some u => simp [hf, h]

theorem joinGroupPhase_users (db : Durable) (roomId userId : String) (f : JoinFaults) :
    (joinGroupPhase db roomId userId f).1.users = db.users := by
  unfold joinGroupPhase
  by_cases hf : f.groupFind = true
  · simp [hf]
  · simp only [hf]
    cases hg : findGroup db roomId with
    | none =>
      by_cases h5 : utf16Length roomId = 5
      · by_cases hc : f.groupCreate = true
        · simp [h5, hc]
        · simp [h5, hc]
      · simp [h5]
    | some g =>
      by_cases hm : userId ∈ g.members
      · simp [hm]
      · by_cases hs : f.groupSave = true
        · simp [hm, hs]
        · simp [hm, hs, saveGroup]

theorem joinGroupPhase_length (db : Durable) (roomId userId : String) (f : JoinFaults)
    (h : utf16Length roomId ≠ 5) :
    (joinGroupPhase db roomId userId f).1.groups.length = db.groups.length := by
  unfold joinGroupPhase
  by_cases hf : f.groupFind = true
  · simp [hf]
  · simp only [hf]
    cases hg : findGroup db roomId with
    | none => simp [h]
    | some g =>
      by_cases hm : userId ∈ g.members
      · simp [hm]
      · by_cases hs : f.groupSave = true
        · simp [hm, hs]
        · simp [hm, hs, saveGroup, length_replaceFirst]

theorem joinGroupPhase_off_code (db : Durable) (roomId userId : String) (f : JoinFaults)
    (h : utf16Length roomId ≠ 5) (hg : findGroup db roomId = none) :
    (joinGroupPhase db roomId userId f).1 = db := by
  unfold joinGroupPhase
  by_cases hf : f.groupFind = true
  · simp [hf]
  · simp [hf, hg, h]

theorem joinDurable_cases (db : Durable) (roomId userId : String) (f : JoinFaults) :
    (joinDurable db roomId userId f).1 = (joinUserPhase db roomId userId f).1 ∨
      (joinDurable db roomId userId f).1 =
        (joinGroupPhase (joinUserPhase db roomId userId f).1 roomId userId f).1 := by
  unfold joinDurable
  by_cases h : (joinUserPhase db roomId userId f).2 = true
  · right
    simp [h]
  · left
    simp [h]

theorem joinRelay_db (s : State) (c : ConnId) (p : String) (now : Nat) :
    (joinRelay s c p now).1.db = s.db := by
  unfold joinRelay
  cases h1 : getProp (ensureArray s.connections p) p with
  | own members =>
    cases h2 : getProp s.messages p with
    | own msgs => simp only [h1, h2]
    | inherited => simp only [h1, h2]
    | undefined => simp only [h1, h2]
  | inherited => simp only [h1]
  | undefined => simp only [h1]

theorem joinCall_db (s : State) (c : ConnId) (p userId : String) (f : JoinFaults) (now : Nat) :
    (joinCall s c p userId f now).1.db = (joinDurable s.db (lastSegment p) userId f).1 := by
  unfold joinCall
  by_cases h : (joinDurable s.db (lastSegment p) userId f).2 = true
  · simp [h, joinRelay_db]
  · simp [h]

theorem chatDurable_users (db : Durable) (roomId data sender : String) (f : ChatFaults) :
    (chatDurable db roomId data sender f).users = db.users := by
  unfold chatDurable
  by_cases h1 : f.chatCreate = true
  · simp [h1]
  · by_cases h2 : f.groupFind = true
    · simp [h1, h2]
    · simp only [h1, h2]
      cases hg : findGroup { db with chats := db.chats ++ [ChatDoc.mk data sender] } roomId with
      | none => simp
      | some g =>
        by_cases h3 : f.groupSave = true
        · simp [h3]
        · simp [h3, saveGroup]

theorem chatDurable_groups_length (db : Durable) (roomId data sender : String)
    (f : ChatFaults) :
    (chatDurable db roomId data sender f).groups.length = db.groups.length := by
  unfold chatDurable
  by_cases h1 : f.chatCreate = true
  · simp [h1]
  · by_cases h2 : f.groupFind = true
    · simp [h1, h2]
    · simp only [h1, h2]
      cases hg : findGroup { db with chats := db.chats ++ [ChatDoc.mk data sender] } roomId with
      | none => simp
      | some g =>
        by_cases h3 : f.groupSave = true
        · simp [h3]
        · simp [h3, saveGroup, length_replaceFirst]

theorem chatDurable_groups_of_none (db : Durable) (roomId data sender : String)
    (f : ChatFaults) (hg : findGroup db roomId = none) :
    (chatDurable db roomId data sender f).groups = db.groups := by
  have hg2 : findGroup { db with chats := db.chats ++ [ChatDoc.mk data sender] } roomId = none :=
    hg
  unfold chatDurable
  by_cases h1 : f.chatCreate = true
  · simp [h1]
  · by_cases h2 : f.groupFind = true
    · simp [h1, h2]
    · simp [h1, h2, hg2]

theorem chatMessage_db (sanitizeString : String → String) (s : State) (c : ConnId)
    (data sender : String) (f : ChatFaults) :
    (chatMessage sanitizeString s c data sender f).1.db = s.db ∨
      ∃ e, findRoom s.connections c = some e ∧
        (chatMessage sanitizeString s c data sender f).1.db =
          chatDurable s.db (lastSegment e.1) (sanitizeString data) (sanitizeString sender) f := by
  rcases chatMessage_cases sanitizeString s c data sender f with h | ⟨r, ms, msgs, hf, _, h⟩
  · left
    rw [h]
  · right
    exact ⟨(r, ms), hf, by rw [h]⟩

theorem disconnect_db (s : State) (c : ConnId) : (disconnect s c).1.db = s.db := by
  unfold disconnect
  cases findRoom s.connections c with
  | none => rfl
  | some e => rfl

theorem map_replaceFirst_of_find {α β : Type} (p : α → Bool) (new g : α) (f : α → β)
    (l : List α) (hfind : l.find? p = some g) (hf : f new = f g) :
    (replaceFirst p new l).map f = l.map f := by
  induction l with
  | nil => simp at hfind
  | cons x rest ih =>
    by_cases hx : p x = true
    · simp only [List.find?_cons, hx, Option.some.injEq] at hfind
      subst hfind
      simp [replaceFirst, hx, hf]
    · simp only [List.find?_cons, hx] at hfind
      simp [replaceFirst, hx, ih hfind]

theorem filter_replaceFirst_of_find {α : Type} (p q : α → Bool) (new g : α) (l : List α)
    (hfind : l.find? p = some g) (hq1 : q new = false) (hq2 : q g = false) :
    (replaceFirst p new l).filter q = l.filter q := by
  induction l with
  | nil => simp at hfind
  | cons x rest ih =>
    by_cases hx : p x = true
    · simp only [List.find?_cons, hx, Option.some.injEq] at hfind
      subst hfind
      simp [replaceFirst, hx, List.filter_cons, hq1, hq2]
    · simp only [List.find?_cons, hx] at hfind
      simp [replaceFirst, hx, List.filter_cons, ih hfind]

/-- Writing back a changed copy of the group found under `gid` keeps the ids in
place and every record with another id as it was. -/
theorem saveGroup_frame (db : Durable) (gid : String) (g new : GroupDoc)
    (hfind : findGroup db gid = some g) (hid : new.groupId = g.groupId) :
    (saveGroup db new).users = db.users ∧
      (saveGroup db new).groups.map GroupDoc.groupId = db.groups.map GroupDoc.groupId ∧
      groupsOtherThan gid (saveGroup db new).groups = groupsOtherThan gid db.groups ∧
      (new.messages = g.messages →
        (saveGroup db new).groups.map GroupDoc.messages = db.groups.map GroupDoc.messages) ∧
      (new.members = g.members →
        (saveGroup db new).groups.map GroupDoc.members = db.groups.map GroupDoc.members) := by
  have hgid : g.groupId = gid := by
    have := List.find?_some hfind
    simpa using this
  have hpred : (fun x : GroupDoc => decide (x.groupId = new.groupId)) =
      (fun x : GroupDoc => decide (x.groupId = gid)) := by
    rw [hid, hgid]
  unfold findGroup at hfind
  have hgroups : (saveGroup db new).groups =
      replaceFirst (fun x : GroupDoc => decide (x.groupId = gid)) new db.groups := by
    unfold saveGroup
    simp only [hpred]
  refine ⟨rfl, ?_, ?_, ?_, ?_⟩
  · rw [hgroups]
    exact map_replaceFirst_of_find _ new g _ _ hfind hid
  · rw [hgroups]
    unfold groupsOtherThan
    apply filter_replaceFirst_of_find _ _ new g _ hfind
    · simp [hid, hgid]
    · simp [hgid]
  · intro hm
    rw [hgroups]
    exact map_replaceFirst_of_find _ new g _ _ hfind hm
  · intro hm
    rw [hgroups]
    exact map_replaceFirst_of_find _ new g _ _ hfind hm

theorem joinGroupPhase_frame (db : Durable) (roomId userId : String) (f : JoinFaults)
    (h : utf16Length roomId ≠ 5) :
    (joinGroupPhase db roomId userId f).1.groups.map GroupDoc.groupId =
        db.groups.map GroupDoc.groupId ∧
      (joinGroupPhase db roomId userId f).1.groups.map GroupDoc.messages =
        db.groups.map GroupDoc.messages ∧
      groupsOtherThan roomId (joinGroupPhase db roomId userId f).1.groups =
        groupsOtherThan roomId db.groups := by
  unfold joinGroupPhase
  by_cases hf : f.groupFind = true
  · simp [hf]
  · simp only [hf]
    cases hg : findGroup db roomId with
    | none => simp [h]
    | some g =>
      by_cases hm : userId ∈ g.members
      · simp [hm]
      · by_cases hs : f.groupSave = true
        · simp [hm, hs]
        · have hfr := saveGroup_frame db roomId g
            { g with members := g.members ++ [userId] } hg rfl
          have hc : g.members.contains userId = false := by simpa using hm
          simp only [hc, hs, Bool.not_false, Bool.and_self, if_true, Bool.false_eq_true,
            if_false]
          exact ⟨hfr.2.1, hfr.2.2.2.1 rfl, hfr.2.2.1⟩

theorem chatDurable_frame (db : Durable) (roomId data sender : String) (f : ChatFaults) :
    (chatDurable db roomId data sender f).groups.map GroupDoc.groupId =
        db.groups.map GroupDoc.groupId ∧
      (chatDurable db roomId data sender f).groups.map GroupDoc.members =
        db.groups.map GroupDoc.members ∧
      groupsOtherThan roomId (chatDurable db roomId data sender f).groups =
        groupsOtherThan roomId db.groups := by
  unfold chatDurable
  by_cases h1 : f.chatCreate = true
  · simp [h1]
  · by_cases h2 : f.groupFind = true
    · simp [h1, h2]
    · simp only [h1, h2]
      cases hg : findGroup { db with chats := db.chats ++ [ChatDoc.mk data sender] } roomId with
      | none => simp
      | some g =>
        by_cases h3 : f.groupSave = true
        · simp [h3]
        · have hfr := saveGroup_frame
            { db with chats := db.chats ++ [ChatDoc.mk data sender] } roomId g
            { g with messages := g.messages ++ [ChatDoc.mk data sender] } hg rfl
          simp only [h3, Bool.false_eq_true, if_false]
          exact ⟨hfr.2.1, hfr.2.2.2.2 rfl, hfr.2.2.1⟩

/-- C9 (amended): for a room code whose length is not 5, a `join-call` leaves
the durable user records unchanged, keeps the group records the same in number
and ids (none is created or removed), leaves every group record whose id is not
the room code unchanged, and leaves every message list unchanged; when no
durable group with the room code as id exists all group records are unchanged.
A `chat-message` (whatever the code of the room it lands in) leaves the user
records unchanged, keeps the group records the same in number and ids, leaves
every group record whose id is not the code of that room unchanged, and leaves
every member list unchanged; when no durable group with that code exists, or
the sender is in no room, all group records are unchanged. A `disconnect`
leaves the durable store unchanged. This holds for every outcome of the durable
calls. -/
theorem durable_frame_off_code (sanitizeString : String → String) (s : State) (c : ConnId) :
    (∀ path userId f now, utf16Length (lastSegment path) ≠ 5 →
        (joinCall s c path userId f now).1.db.users = s.db.users ∧
          (joinCall s c path userId f now).1.db.groups.map GroupDoc.groupId =
            s.db.groups.map GroupDoc.groupId ∧
          (joinCall s c path userId f now).1.db.groups.map GroupDoc.messages =
            s.db.groups.map GroupDoc.messages ∧
          groupsOtherThan (lastSegment path) (joinCall s c path userId f now).1.db.groups =
            groupsOtherThan (lastSegment path) s.db.groups ∧
          (findGroup s.db (lastSegment path) = none →
            (joinCall s c path userId f now).1.db.groups = s.db.groups)) ∧
      (∀ data sender f,
        (chatMessage sanitizeString s c data sender f).1.db.users = s.db.users ∧
          (chatMessage sanitizeString s c data sender f).1.db.groups.map GroupDoc.groupId =
            s.db.groups.map GroupDoc.groupId ∧
          (chatMessage sanitizeString s c data sender f).1.db.groups.map GroupDoc.members =
            s.db.groups.map GroupDoc.members ∧
          (∀ gid, (∀ e, findRoom s.connections c = some e → lastSegment e.1 = gid) →
            groupsOtherThan gid (chatMessage sanitizeString s c data sender f).1.db.groups =
              groupsOtherThan gid s.db.groups) ∧
          ((∀ e, findRoom s.connections c = some e → findGroup s.db (lastSegment e.1) = none) →
            (chatMessage sanitizeString s c data sender f).1.db.groups = s.db.groups)) ∧
      (disconnect s c).1.db = s.db := by
  refine ⟨?_, ?_, disconnect_db s c⟩
  · intro path userId f now h5
    rw [joinCall_db]
    have hu := joinUserPhase_off_code s.db (lastSegment path) userId f h5
    rcases joinDurable_cases s.db (lastSegment path) userId f with h | h
    · rw [h, hu]
      exact ⟨rfl, rfl, rfl, rfl, fun _ => rfl⟩
    · rw [h, hu]
      have hfr := joinGroupPhase_frame s.db (lastSegment path) userId f h5
      refine ⟨joinGroupPhase_users _ _ _ _, hfr.1, hfr.2.1, hfr.2.2, ?_⟩
      intro hg
      rw [joinGroupPhase_off_code _ _ _ _ h5 hg]
  · intro data sender f
    rcases chatMessage_db sanitizeString s c data sender f with h | ⟨e, he, h⟩
    · rw [h]
      exact ⟨rfl, rfl, rfl, fun _ _ => rfl, fun _ => rfl⟩
    · rw [h]
      have hfr := chatDurable_frame s.db (lastSegment e.1) (sanitizeString data)
        (sanitizeString sender) f
      refine ⟨chatDurable_users _ _ _ _ _, hfr.1, hfr.2.1, ?_, ?_⟩
      · intro gid hgid
        rw [← hgid e he]
        exact hfr.2.2
      · intro hg
        exact chatDurable_groups_of_none _ _ _ _ _ (hg e he)

/-- Witness for C9: the user `u1` and the groups `abc` and `abcde` are on
record. A join for the three-character code `abc` leaves the users and the
group `abcde` as they were; with no group `xyz` on record, a join for `xyz` and
a chat in that room leave all group records as they were. -/
theorem durable_frame_off_code_witness :
    (joinCall ⟨[], [], [], ⟨[⟨"u1", []⟩], [⟨"abc", [], []⟩, ⟨"abcde", ["u1"], []⟩], []⟩⟩
        "a" "x/abc" "u1" noJoinFaults 1).1.db.users = [⟨"u1", []⟩] ∧
      groupsOtherThan "abc"
        (joinCall ⟨[], [], [], ⟨[⟨"u1", []⟩], [⟨"abc", [], []⟩, ⟨"abcde", ["u1"], []⟩], []⟩⟩
          "a" "x/abc" "u1" noJoinFaults 1).1.db.groups = [⟨"abcde", ["u1"], []⟩] ∧
      (joinCall ⟨[], [], [], ⟨[⟨"u1", []⟩], [⟨"abc", [], []⟩, ⟨"abcde", ["u1"], []⟩], []⟩⟩
        "a" "x/xyz" "u1" noJoinFaults 1).1.db.groups =
        [⟨"abc", [], []⟩, ⟨"abcde", ["u1"], []⟩] ∧
      (chatMessage id
        ⟨[("x/xyz", ["a"])], [], [], ⟨[⟨"u1", []⟩], [⟨"abc", [], []⟩, ⟨"abcde", ["u1"], []⟩], []⟩⟩
        "a" "hi" "u1" noChatFaults).1.db.groups = [⟨"abc", [], []⟩, ⟨"abcde", ["u1"], []⟩] := by
  have h := (durable_frame_off_code id
    ⟨[], [], [], ⟨[⟨"u1", []⟩], [⟨"abc", [], []⟩, ⟨"abcde", ["u1"], []⟩], []⟩⟩ "a").1
    "x/abc" "u1" noJoinFaults 1 (by decide)
  have h1 := (durable_frame_off_code id
    ⟨[], [], [], ⟨[⟨"u1", []⟩], [⟨"abc", [], []⟩, ⟨"abcde", ["u1"], []⟩], []⟩⟩ "a").1
    "x/xyz" "u1" noJoinFaults 1 (by decide)
  have h2 := ((durable_frame_off_code id
    ⟨[("x/xyz", ["a"])], [], [],
      ⟨[⟨"u1", []⟩], [⟨"abc", [], []⟩, ⟨"abcde", ["u1"], []⟩], []⟩⟩ "a").2.1
    "hi" "u1" noChatFaults).2.2.2.2 (by decide)
  exact ⟨h.1, h.2.2.2.1, h1.2.2.2.2 (by decide), h2⟩

/-- C9 fails as stated: with a durable group `abc` on record, a `join-call` for
the three-character code `abc` adds the user to the members of that group, and a
`chat-message` in that room appends to its messages. -/
theorem durable_off_code_counterexample :
    utf16Length (lastSegment "x/abc") = 3 ∧
      (joinCall ⟨[], [], [], ⟨[], [⟨"abc", [], []⟩], []⟩⟩ "a" "x/abc" "u1"
        noJoinFaults 1).1.db.groups = [⟨"abc", ["u1"], []⟩] ∧
      (chatMessage id ⟨[("x/abc", ["a"])], [], [], ⟨[], [⟨"abc", ["u1"], []⟩], []⟩⟩
        "a" "hi" "u1" noChatFaults).1.db.groups = [⟨"abc", ["u1"], [⟨"hi", "u1"⟩]⟩] := by
  decide


/-! ## One room per socket -/

theorem apart_symm {e1 e2 : String × List ConnId} (h : Apart e1 e2) : Apart e2 e1 :=
  ⟨fun hh => h.1 hh.symm, fun x hx hx1 => h.2 x hx1 hx⟩

theorem objInsert_perm {α : Type} (o : List (String × α)) (k : String) (v : α) :
    (objInsert o k v).Perm ((k, v) :: o) := by
  induction o with
  | nil => exact List.Perm.refl _
  | cons e rest ih =>
    obtain ⟨k2, v2⟩ := e
    by_cases hb : keyBefore k k2 = true
    · simp only [objInsert, hb, if_true]
      exact List.Perm.refl _
    · simp only [objInsert, hb]
      exact ((List.Perm.cons (k2, v2) ih).trans (List.Perm.swap (k, v) (k2, v2) rest))

theorem objReplace_perm {α : Type} (o : List (String × α)) (k : String) (v w : α)
    (hnd : (objKeys o).Nodup) (h : objGet o k = some w) :
    (objReplace o k v).Perm ((k, v) :: objDelete o k) := by
  induction o with
  | nil => simp [objGet] at h
  | cons e rest ih =>
    obtain ⟨k2, v2⟩ := e
    simp only [objKeys, List.map_cons, List.nodup_cons] at hnd
    by_cases hk : k2 = k
    · subst hk
      have hrest : objDelete rest k2 = rest :=
        objDelete_eq_self rest k2 (objGet_eq_none_of_not_mem_keys rest k2 hnd.1)
      have hdel : objDelete ((k2, v2) :: rest) k2 = rest := by
        simp only [objDelete, List.filter_cons, bne_self_eq_false, Bool.false_eq_true, if_false]
        exact hrest
      rw [hdel]
      simp only [objReplace, if_true]
      exact List.Perm.refl _
    · simp only [objGet, hk, if_false] at h
      have hdel : objDelete ((k2, v2) :: rest) k = (k2, v2) :: objDelete rest k := by
        simp [objDelete, List.filter_cons, hk]
      rw [hdel]
      simp only [objReplace, hk, if_false]
      exact ((List.Perm.cons (k2, v2) (ih hnd.2 h)).trans
        (List.Perm.swap (k, v) (k2, v2) (objDelete rest k)))

theorem objSet_perm {α : Type} (o : List (String × α)) (k : String) (v : α)
    (hnd : (objKeys o).Nodup) : (objSet o k v).Perm ((k, v) :: objDelete o k) := by
  unfold objSet
  cases h : objGet o k with
  | none =>
    simp only
    rw [objDelete_eq_self o k h]
    exact objInsert_perm o k v
  | some w => exact objReplace_perm o k v w hnd h

theorem roomsDisjoint_keys {conns : List (String × List ConnId)} (h : RoomsDisjoint conns) :
    (objKeys conns).Nodup := by
  unfold objKeys List.Nodup
  rw [List.pairwise_map]
  exact List.Pairwise.imp (fun hab => hab.1) h

theorem roomsDisjoint_objDelete {conns : List (String × List ConnId)} (k : String)
    (h : RoomsDisjoint conns) : RoomsDisjoint (objDelete conns k) :=
  List.Pairwise.filter _ h

theorem roomsDisjoint_objSet {conns : List (String × List ConnId)} (k : String)
    (v : List ConnId) (h : RoomsDisjoint conns)
    (hv : ∀ e ∈ conns, e.1 ≠ k → ∀ x ∈ v, x ∉ e.2) : RoomsDisjoint (objSet conns k v) := by
  unfold RoomsDisjoint
  rw [List.Perm.pairwise_iff (fun hab => apart_symm hab)
    (objSet_perm conns k v (roomsDisjoint_keys h))]
  rw [List.pairwise_cons]
  refine ⟨?_, roomsDisjoint_objDelete k h⟩
  intro e he
  unfold objDelete at he
  rw [List.mem_filter] at he
  have hne : e.1 ≠ k := by simpa using he.2
  exact ⟨fun hh => hne hh.symm, hv e he.1 hne⟩

theorem mem_objSet {α : Type} {conns : List (String × α)} (k : String) (v : α)
    (hnd : (objKeys conns).Nodup) (e : String × α) (he : e ∈ objSet conns k v) :
    e = (k, v) ∨ (e ∈ conns ∧ e.1 ≠ k) := by
  rw [(objSet_perm conns k v hnd).mem_iff] at he
  rcases List.mem_cons.mp he with h | h
  · exact Or.inl h
  · unfold objDelete at h
    rw [List.mem_filter] at h
    exact Or.inr ⟨h.1, by simpa using h.2⟩

theorem roomsDisjoint_other {conns : List (String × List ConnId)} (h : RoomsDisjoint conns)
    (k : String) (v : List ConnId) (hk : (k, v) ∈ conns) (e : String × List ConnId)
    (he : e ∈ conns) (hne : e.1 ≠ k) : ∀ x ∈ v, x ∉ e.2 := by
  have hsym : Symmetric Apart := fun _ _ hab => apart_symm hab
  have hab : Apart (k, v) e := by
    apply List.Pairwise.forall hsym h hk he
    intro heq
    apply hne
    rw [← heq]
  exact hab.2

theorem not_mem_other_rooms {s : State} {c : ConnId} {p : String}
    (h : (roomsOf s c).all (fun k => k == p) = true) :
    ∀ e ∈ s.connections, e.1 ≠ p → c ∉ e.2 := by
  intro e he hne hc
  have hmem : e ∈ s.connections.filter (fun e => e.2.contains c) := by
    rw [List.mem_filter]
    exact ⟨he, by simpa using hc⟩
  have hk : e.1 ∈ roomsOf s c := List.mem_map.mpr ⟨e, hmem, rfl⟩
  rw [List.all_eq_true] at h
  have := h e.1 hk
  exact hne (by simpa using this)

theorem roomsOf_length_le_one {s : State} (h : RoomsDisjoint s.connections) (c : ConnId) :
    (roomsOf s c).length ≤ 1 := by
  have hp : (s.connections.filter (fun e => e.2.contains c)).Pairwise Apart :=
    List.Pairwise.filter _ h
  have hall : ∀ e ∈ s.connections.filter (fun e => e.2.contains c), c ∈ e.2 := by
    intro e he
    rw [List.mem_filter] at he
    simpa using he.2
  unfold roomsOf objKeys
  rw [List.length_map]
  cases hl : s.connections.filter (fun e => e.2.contains c) with
  | nil => simp
  | cons a rest =>
    cases rest with
    | nil => simp
    | cons b rest2 =>
      exfalso
      rw [hl] at hp hall
      have hab : Apart a b := (List.pairwise_cons.mp hp).1 b (by simp)
      exact hab.2 c (hall a (by simp)) (hall b (by simp))

theorem joinRelay_connections (s : State) (c : ConnId) (p : String) (now : Nat) :
    (joinRelay s c p now).1.connections = s.connections ∨
      (getProp s.connections p ≠ Lookup.inherited ∧
        (joinRelay s c p now).1.connections =
          objSet (ensureArray s.connections p) p ((objGet s.connections p).getD [] ++ [c])) := by
  cases hg : objGet s.connections p with
  | some v =>
    right
    have h0 : getProp s.connections p = Lookup.own v := by simp [getProp, hg]
    have h1 : ensureArray s.connections p = s.connections := by
      unfold ensureArray
      rw [h0]
    refine ⟨by rw [h0]; simp, ?_⟩
    unfold joinRelay
    cases h2 : getProp s.messages p with
    | own msgs => simp only [h1, h0, h2, Option.getD_some]
    | inherited => simp only [h1, h0, h2, Option.getD_some]
    | undefined => simp only [h1, h0, h2, Option.getD_some]
  | none =>
    by_cases hp : p ∈ objectPrototypeKeys
    · left
      have h0 : getProp s.connections p = Lookup.inherited := by simp [getProp, hg, hp]
      have h1 : ensureArray s.connections p = s.connections := by
        unfold ensureArray
        rw [h0]
      unfold joinRelay
      simp only [h1, h0]
    · right
      refine ⟨by simp [getProp, hg, hp], ?_⟩
      rw [joinRelay_eq s c p now hp]
      simp [hg]

theorem chatMessage_connections (sanitizeString : String → String) (s : State) (c : ConnId)
    (data sender : String) (f : ChatFaults) :
    (chatMessage sanitizeString s c data sender f).1.connections = s.connections := by
  rcases chatMessage_cases sanitizeString s c data sender f with h | ⟨r, ms, msgs, _, _, h⟩
  · rw [h]
  · rw [h]

theorem roomsDisjoint_ensureArray {conns : List (String × List ConnId)} (p : String)
    (h : RoomsDisjoint conns) : RoomsDisjoint (ensureArray conns p) := by
  unfold ensureArray
  cases getProp conns p with
  | own v => exact h
  | inherited => exact h
  | undefined =>
    apply roomsDisjoint_objSet p [] h
    intro e _ _ x hx
    simp at hx

theorem mem_ensureArray {conns : List (String × List ConnId)} (p : String)
    (hnd : (objKeys conns).Nodup) (e : String × List ConnId) (he : e ∈ ensureArray conns p)
    (hne : e.1 ≠ p) : e ∈ conns := by
  unfold ensureArray at he
  cases hg : getProp conns p with
  | own v => rw [hg] at he; exact he
  | inherited => rw [hg] at he; exact he
  | undefined =>
    rw [hg] at he
    rcases mem_objSet p [] hnd e he with h | h
    · exact absurd (by rw [h]) hne
    · exact h.1

theorem roomsDisjoint_joinRelay (s : State) (c : ConnId) (p : String) (now : Nat)
    (h : RoomsDisjoint s.connections) (hout : ∀ e ∈ s.connections, e.1 ≠ p → c ∉ e.2) :
    RoomsDisjoint (joinRelay s c p now).1.connections := by
  rcases joinRelay_connections s c p now with hc | ⟨_, hc⟩
  · rw [hc]
    exact h
  · rw [hc]
    apply roomsDisjoint_objSet p _ (roomsDisjoint_ensureArray p h)
    intro e he hne x hx
    have hmem : e ∈ s.connections := mem_ensureArray p (roomsDisjoint_keys h) e he hne
    rcases List.mem_append.mp hx with hx1 | hx1
    · cases hg : objGet s.connections p with
      | none => simp [hg] at hx1
      | some v =>
        simp only [hg, Option.getD_some] at hx1
        exact roomsDisjoint_other h p v (mem_of_objGet_eq_some _ _ _ hg) e hmem hne x hx1
    · have hxc : x = c := by simpa using hx1
      rw [hxc]
      exact hout e hmem hne

theorem roomsDisjoint_joinCall (s : State) (c : ConnId) (p userId : String) (f : JoinFaults)
    (now : Nat) (h : RoomsDisjoint s.connections)
    (hout : ∀ e ∈ s.connections, e.1 ≠ p → c ∉ e.2) :
    RoomsDisjoint (joinCall s c p userId f now).1.connections := by
  unfold joinCall
  by_cases hok : (joinDurable s.db (lastSegment p) userId f).2 = true
  · simp only [hok, if_true]
    exact roomsDisjoint_joinRelay _ c p now h hout
  · simp only [hok]
    exact h

theorem roomsDisjoint_disconnect (s : State) (c : ConnId) (h : RoomsDisjoint s.connections) :
    RoomsDisjoint (disconnect s c).1.connections := by
  unfold disconnect
  cases hf : findRoom s.connections c with
  | none => exact h
  | some e =>
    obtain ⟨k, v⟩ := e
    have hset : RoomsDisjoint (objSet s.connections k (v.filter (fun id => id != c))) := by
      apply roomsDisjoint_objSet k _ h
      intro e he hne x hx
      exact roomsDisjoint_other h k v (findRoom_some_mem hf).1 e he hne x
        (List.mem_of_mem_filter hx)
    simp only
    split
    · exact roomsDisjoint_objDelete k hset
    · exact hset

theorem roomsDisjoint_step (sanitizeString : String → String) (s : State) (ev : Input)
    (h : RoomsDisjoint s.connections)
    (hg : joinsStayInRoom sanitizeString s [ev] = true) :
    RoomsDisjoint (step sanitizeString s ev).1.connections := by
  cases ev with
  | joinCall c path userId f now =>
    have hout : (roomsOf s c).all (fun k => k == path) = true := by
      simpa [joinsStayInRoom] using hg
    exact roomsDisjoint_joinCall s c path userId f now h (not_mem_other_rooms hout)
  | signal c toId message => exact h
  | chatMessage c data sender f =>
    simp only [step]
    rw [chatMessage_connections]
    exact h
  | disconnect c => exact roomsDisjoint_disconnect s c h

theorem roomsDisjoint_run (sanitizeString : String → String) (evs : List Input) :
    ∀ s : State, RoomsDisjoint s.connections →
      joinsStayInRoom sanitizeString s evs = true →
      RoomsDisjoint (run sanitizeString s evs).connections := by
  induction evs with
  | nil => intro s h _; exact h
  | cons ev rest ih =>
    intro s h hg
    simp only [joinsStayInRoom, Bool.and_eq_true] at hg
    have hstep : RoomsDisjoint (step sanitizeString s ev).1.connections := by
      apply roomsDisjoint_step sanitizeString s ev h
      simp only [joinsStayInRoom, Bool.and_eq_true]
      exact ⟨hg.1, trivial⟩
    exact ih _ hstep hg.2

theorem joinsStayInRoom_append (sanitizeString : String → String) (pre suf : List Input) :
    ∀ s : State, joinsStayInRoom sanitizeString s (pre ++ suf) = true →
      joinsStayInRoom sanitizeString s pre = true := by
  induction pre with
  | nil => intro s _; rfl
  | cons ev rest ih =>
    intro s hg
    simp only [List.cons_append, joinsStayInRoom, Bool.and_eq_true] at hg
    simp only [joinsStayInRoom, Bool.and_eq_true]
    exact ⟨hg.1, ih _ hg.2⟩

/-- C1 (amended): start from the empty registry and apply any sequence of
`join-call`, `signal`, `chat-message` and `disconnect` events, each handled as
one step, in which no `join-call` for a path is handled while its socket is in
the member list of a room other than that path (joining again the room one is
in is allowed). Then in every state reached along the way (after every initial
part of the sequence) each socket id is in the member list of at most one room
path. -/
theorem one_room_per_socket_without_room_change (sanitizeString : String → String)
    (db : Durable) (evs : List Input)
    (hg : joinsStayInRoom sanitizeString (initState db) evs = true) :
    ∀ pre suf, evs = pre ++ suf →
      ∀ c, (roomsOf (run sanitizeString (initState db) pre) c).length ≤ 1 := by
  intro pre suf hsplit c
  rw [hsplit] at hg
  apply roomsOf_length_le_one
  apply roomsDisjoint_run sanitizeString pre (initState db) List.Pairwise.nil
  exact joinsStayInRoom_append sanitizeString pre suf (initState db) hg

/-- Witness for C1: `a` joins a room twice, `b` joins it, `a` leaves and joins
another room. -/
theorem one_room_per_socket_without_room_change_witness :
    (roomsOf (run id (initState ⟨[], [], []⟩)
      [Input.joinCall "a" "x/r1" "u1" noJoinFaults 1,
       Input.joinCall "a" "x/r1" "u1" noJoinFaults 2,
       Input.joinCall "b" "x/r1" "u2" noJoinFaults 3,
       Input.disconnect "a",
       Input.joinCall "a" "x/r2" "u1" noJoinFaults 4]) "a").length ≤ 1 ∧
    (roomsOf (run id (initState ⟨[], [], []⟩)
      [Input.joinCall "a" "x/r1" "u1" noJoinFaults 1,
       Input.joinCall "a" "x/r1" "u1" noJoinFaults 2]) "a").length ≤ 1 :=
  ⟨one_room_per_socket_without_room_change id ⟨[], [], []⟩
    [Input.joinCall "a" "x/r1" "u1" noJoinFaults 1,
     Input.joinCall "a" "x/r1" "u1" noJoinFaults 2,
     Input.joinCall "b" "x/r1" "u2" noJoinFaults 3,
     Input.disconnect "a",
     Input.joinCall "a" "x/r2" "u1" noJoinFaults 4] (by decide)
    [Input.joinCall "a" "x/r1" "u1" noJoinFaults 1,
     Input.joinCall "a" "x/r1" "u1" noJoinFaults 2,
     Input.joinCall "b" "x/r1" "u2" noJoinFaults 3,
     Input.disconnect "a",
     Input.joinCall "a" "x/r2" "u1" noJoinFaults 4] [] (by simp) "a",
   one_room_per_socket_without_room_change id ⟨[], [], []⟩
    [Input.joinCall "a" "x/r1" "u1" noJoinFaults 1,
     Input.joinCall "a" "x/r1" "u1" noJoinFaults 2,
     Input.joinCall "b" "x/r1" "u2" noJoinFaults 3,
     Input.disconnect "a",
     Input.joinCall "a" "x/r2" "u1" noJoinFaults 4] (by decide)
    [Input.joinCall "a" "x/r1" "u1" noJoinFaults 1,
     Input.joinCall "a" "x/r1" "u1" noJoinFaults 2]
    [Input.joinCall "b" "x/r1" "u2" noJoinFaults 3,
     Input.disconnect "a",
     Input.joinCall "a" "x/r2" "u1" noJoinFaults 4] (by simp) "a"⟩

/-- C1 fails as stated: after the same socket handled `join-call` for two paths
it is in the member lists of both. -/
theorem one_room_per_socket_counterexample :
    roomsOf (run id (initState ⟨[], [], []⟩)
      [Input.joinCall "a" "x/r1" "u1" noJoinFaults 1,
       Input.joinCall "a" "x/r2" "u1" noJoinFaults 2]) "a" = ["x/r1", "x/r2"] := by
  decide


/-! ## States reached from start-up -/

theorem mem_objSet_of_mem {α : Type} {o : List (String × α)} (k : String) (v : α)
    (hnd : (objKeys o).Nodup) (e : String × α) (he : e ∈ o) (hne : e.1 ≠ k) :
    e ∈ objSet o k v := by
  rw [(objSet_perm o k v hnd).mem_iff]
  apply List.mem_cons_of_mem
  unfold objDelete
  rw [List.mem_filter]
  exact ⟨he, by simpa using hne⟩

theorem mem_objSet_self {α : Type} (o : List (String × α)) (k : String) (v : α) :
    (k, v) ∈ objSet o k v :=
  mem_of_objGet_eq_some _ _ _ (objGet_objSet_self o k v)

theorem nodup_keys_objDelete {α : Type} {o : List (String × α)} (k : String)
    (hnd : (objKeys o).Nodup) : (objKeys (objDelete o k)).Nodup := by
  unfold objKeys objDelete
  exact List.Nodup.sublist (List.Sublist.map _ (List.filter_sublist o)) hnd

theorem nodup_keys_objSet {α : Type} {o : List (String × α)} (k : String) (v : α)
    (hnd : (objKeys o).Nodup) : (objKeys (objSet o k v)).Nodup := by
  have hp : (objKeys (objSet o k v)).Perm (k :: objKeys (objDelete o k)) :=
    (objSet_perm o k v hnd).map Prod.fst
  rw [hp.nodup_iff, List.nodup_cons]
  refine ⟨?_, nodup_keys_objDelete k hnd⟩
  intro hk
  have := objGet_objDelete_self o k
  exact not_mem_keys_of_objGet_eq_none _ _ this hk

theorem mem_keys_objSet {α : Type} {o : List (String × α)} (k : String) (v : α)
    (hnd : (objKeys o).Nodup) (k2 : String) (hk : k2 ∈ objKeys (objSet o k v)) :
    k2 = k ∨ k2 ∈ objKeys o := by
  obtain ⟨e, he, hfst⟩ := List.mem_map.mp hk
  rcases mem_objSet k v hnd e he with h | h
  · left
    rw [← hfst, h]
  · right
    exact List.mem_map.mpr ⟨e, h.1, hfst⟩

theorem mem_keys_objDelete {α : Type} {o : List (String × α)} (k k2 : String)
    (hk : k2 ∈ objKeys (objDelete o k)) : k2 ∈ objKeys o := by
  obtain ⟨e, he, hfst⟩ := List.mem_map.mp hk
  exact List.mem_map.mpr ⟨e, List.mem_of_mem_filter he, hfst⟩

theorem joinRelay_cases (s : State) (c : ConnId) (p : String) (now : Nat) :
    (joinRelay s c p now).1 = s ∨
      ((objGet s.connections p ≠ none ∨ p ∉ objectPrototypeKeys) ∧
        (joinRelay s c p now).1.connections =
          objSet (ensureArray s.connections p) p ((objGet s.connections p).getD [] ++ [c]) ∧
        (joinRelay s c p now).1.timeOnline = objSet s.timeOnline c now) := by
  cases hg : objGet s.connections p with
  | some v =>
    right
    have h0 : getProp s.connections p = Lookup.own v := by simp [getProp, hg]
    have h1 : ensureArray s.connections p = s.connections := by
      unfold ensureArray
      rw [h0]
    refine ⟨Or.inl (by simp), ?_⟩
    unfold joinRelay
    cases h2 : getProp s.messages p with
    | own msgs => simp only [h1, h0, h2, Option.getD_some, and_self]
    | inherited => simp only [h1, h0, h2, Option.getD_some, and_self]
    | undefined => simp only [h1, h0, h2, Option.getD_some, and_self]
  | none =>
    by_cases hp : p ∈ objectPrototypeKeys
    · left
      have h0 : getProp s.connections p = Lookup.inherited := by simp [getProp, hg, hp]
      have h1 : ensureArray s.connections p = s.connections := by
        unfold ensureArray
        rw [h0]
      unfold joinRelay
      simp only [h1, h0]
    · right
      refine ⟨Or.inr hp, ?_⟩
      rw [joinRelay_eq s c p now hp]
      simp [hg]

theorem ensureArray_cases {α : Type} (o : List (String × List α)) (k : String) :
    ensureArray o k = o ∨
      (objGet o k = none ∧ k ∉ objectPrototypeKeys ∧ ensureArray o k = objSet o k []) := by
  unfold ensureArray
  cases hg : objGet o k with
  | some v =>
    left
    simp [getProp, hg]
  | none =>
    by_cases hk : k ∈ objectPrototypeKeys
    · left
      simp [getProp, hg, hk]
    · right
      simp [getProp, hg, hk]

theorem wellFormed_relay_update (s : State) (c : ConnId) (p : String) (now : Nat)
    (conns : List (String × List ConnId)) (times : List (String × Nat))
    (h : WellFormed s)
    (hp : objGet s.connections p ≠ none ∨ p ∉ objectPrototypeKeys)
    (hconns : conns =
      objSet (ensureArray s.connections p) p ((objGet s.connections p).getD [] ++ [c]))
    (htimes : times = objSet s.timeOnline c now) :
    (objKeys conns).Nodup ∧ (∀ k ∈ objKeys conns, k ∉ objectPrototypeKeys) ∧
      (∀ d t, objGet times d = some t → ∃ e ∈ conns, d ∈ e.2) := by
  obtain ⟨hnd, hkeys, htime⟩ := h
  have hpk : p ∉ objectPrototypeKeys := by
    rcases hp with hp | hp
    · apply hkeys
      by_contra hcon
      exact hp (objGet_eq_none_of_not_mem_keys _ _ hcon)
    · exact hp
  have hnd1 : (objKeys (ensureArray s.connections p)).Nodup := by
    rcases ensureArray_cases s.connections p with he | ⟨_, _, he⟩
    · rw [he]; exact hnd
    · rw [he]; exact nodup_keys_objSet p [] hnd
  have hsub : ∀ k ∈ objKeys (ensureArray s.connections p), k = p ∨ k ∈ objKeys s.connections := by
    intro k hk
    rcases ensureArray_cases s.connections p with he | ⟨_, _, he⟩
    · rw [he] at hk; exact Or.inr hk
    · rw [he] at hk; exact mem_keys_objSet p [] hnd k hk
  have hmem1 : ∀ e ∈ s.connections, e.1 ≠ p → e ∈ ensureArray s.connections p := by
    intro e he hne
    rcases ensureArray_cases s.connections p with h1 | ⟨_, _, h1⟩
    · rw [h1]; exact he
    · rw [h1]; exact mem_objSet_of_mem p [] hnd e he hne
  subst hconns htimes
  refine ⟨nodup_keys_objSet p _ hnd1, ?_, ?_⟩
  · intro k hk
    rcases mem_keys_objSet p _ hnd1 k hk with h1 | h1
    · rw [h1]; exact hpk
    · rcases hsub k h1 with h2 | h2
      · rw [h2]; exact hpk
      · exact hkeys k h2
  · intro d t hd
    by_cases hdc : d = c
    · exact ⟨(p, (objGet s.connections p).getD [] ++ [c]), mem_objSet_self _ _ _,
        by simp [hdc]⟩
    · rw [objGet_objSet_of_ne _ _ _ _ hdc] at hd
      obtain ⟨e, he, hde⟩ := htime d t hd
      by_cases hep : e.1 = p
      · refine ⟨(p, (objGet s.connections p).getD [] ++ [c]), mem_objSet_self _ _ _, ?_⟩
        have hget : objGet s.connections p = some e.2 := by
          apply objGet_eq_some_of_mem _ _ _ hnd
          rw [← hep]
          exact he
        simp [hget, hde]
      · exact ⟨e, mem_objSet_of_mem p _ hnd1 e (hmem1 e he hep) hep, hde⟩

theorem wellFormed_joinRelay (s : State) (c : ConnId) (p : String) (now : Nat)
    (h : WellFormed s) : WellFormed (joinRelay s c p now).1 := by
  rcases joinRelay_cases s c p now with hs | ⟨hp, hc, ht⟩
  · rw [hs]
    exact h
  · exact wellFormed_relay_update s c p now _ _ h hp hc ht

theorem wellFormed_joinCall (s : State) (c : ConnId) (p userId : String) (f : JoinFaults)
    (now : Nat) (h : WellFormed s) : WellFormed (joinCall s c p userId f now).1 := by
  unfold joinCall
  by_cases hok : (joinDurable s.db (lastSegment p) userId f).2 = true
  · simp only [hok, if_true]
    exact wellFormed_joinRelay _ c p now h
  · simp only [hok]
    exact h

theorem chatMessage_timeOnline (sanitizeString : String → String) (s : State) (c : ConnId)
    (data sender : String) (f : ChatFaults) :
    (chatMessage sanitizeString s c data sender f).1.timeOnline = s.timeOnline := by
  rcases chatMessage_cases sanitizeString s c data sender f with h | ⟨r, ms, msgs, _, _, h⟩
  · rw [h]
  · rw [h]

theorem wellFormed_chatMessage (sanitizeString : String → String) (s : State) (c : ConnId)
    (data sender : String) (f : ChatFaults) (h : WellFormed s) :
    WellFormed (chatMessage sanitizeString s c data sender f).1 := by
  unfold WellFormed
  rw [chatMessage_connections, chatMessage_timeOnline]
  exact h

theorem wellFormed_disconnect (s : State) (c : ConnId) (h : WellFormed s) :
    WellFormed (disconnect s c).1 := by
  obtain ⟨hnd, hkeys, htime⟩ := h
  have hlook : ∀ d t, objGet (objDelete s.timeOnline c) d = some t →
      d ≠ c ∧ objGet s.timeOnline d = some t := by
    intro d t hd
    have hdc : d ≠ c := by
      intro hh
      rw [hh, objGet_objDelete_self] at hd
      simp at hd
    exact ⟨hdc, by rw [objGet_objDelete_of_ne _ _ _ hdc] at hd; exact hd⟩
  unfold disconnect
  cases hf : findRoom s.connections c with
  | none =>
    refine ⟨hnd, hkeys, ?_⟩
    intro d t hd
    exact htime d t (hlook d t hd).2
  | some e0 =>
    obtain ⟨k, v⟩ := e0
    have hkv := (findRoom_some_mem hf).1
    have hnd1 : (objKeys (objSet s.connections k (v.filter (fun id => id != c)))).Nodup :=
      nodup_keys_objSet k _ hnd
    have hkeys1 : ∀ k2 ∈ objKeys (objSet s.connections k (v.filter (fun id => id != c))),
        k2 ∉ objectPrototypeKeys := by
      intro k2 hk2
      rcases mem_keys_objSet k _ hnd k2 hk2 with h1 | h1
      · rw [h1]
        exact hkeys k (List.mem_map.mpr ⟨(k, v), hkv, rfl⟩)
      · exact hkeys k2 h1
    simp only [objGet_objSet_self, Option.getD_some]
    by_cases hempty : (v.filter (fun id => id != c)).length = 0
    · simp only [hempty, if_true]
      refine ⟨nodup_keys_objDelete k hnd1, ?_, ?_⟩
      · intro k2 hk2
        exact hkeys1 k2 (mem_keys_objDelete k k2 hk2)
      · intro d t hd
        obtain ⟨hdc, hd2⟩ := hlook d t hd
        obtain ⟨e, he, hde⟩ := htime d t hd2
        have hek : e.1 ≠ k := by
          intro hh
          have hev : objGet s.connections k = some e.2 := by
            apply objGet_eq_some_of_mem _ _ _ hnd
            rw [← hh]
            exact he
          have hvv := objGet_eq_some_of_mem _ _ _ hnd hkv
          rw [hvv] at hev
          simp only [Option.some.injEq] at hev
          have hdv : d ∈ v.filter (fun id => id != c) := by
            rw [List.mem_filter]
            exact ⟨by rw [hev]; exact hde, by simpa using hdc⟩
          rw [List.length_eq_zero.mp hempty] at hdv
          simp at hdv
        refine ⟨e, ?_, hde⟩
        unfold objDelete
        rw [List.mem_filter]
        exact ⟨mem_objSet_of_mem k _ hnd e he hek, by simpa using hek⟩
    · simp only [hempty, if_false]
      refine ⟨hnd1, hkeys1, ?_⟩
      intro d t hd
      obtain ⟨hdc, hd2⟩ := hlook d t hd
      obtain ⟨e, he, hde⟩ := htime d t hd2
      by_cases hek : e.1 = k
      · refine ⟨(k, v.filter (fun id => id != c)), mem_objSet_self _ _ _, ?_⟩
        have hev : objGet s.connections k = some e.2 := by
          apply objGet_eq_some_of_mem _ _ _ hnd
          rw [← hek]
          exact he
        have hvv := objGet_eq_some_of_mem _ _ _ hnd hkv
        rw [hvv] at hev
        simp only [Option.some.injEq] at hev
        rw [List.mem_filter]
        exact ⟨by rw [hev]; exact hde, by simpa using hdc⟩
      · exact ⟨e, mem_objSet_of_mem k _ hnd e he hek, hde⟩

theorem wellFormed_step (sanitizeString : String → String) (s : State) (ev : Input)
    (h : WellFormed s) : WellFormed (step sanitizeString s ev).1 := by
  cases ev with
  | joinCall c path userId f now => exact wellFormed_joinCall s c path userId f now h
  | signal c toId message => exact h
  | chatMessage c data sender f => exact wellFormed_chatMessage sanitizeString s c data sender f h
  | disconnect c => exact wellFormed_disconnect s c h

/-- Every state reached from start-up is well formed. -/
theorem wellFormed_run (sanitizeString : String → String) (db : Durable) (evs : List Input) :
    WellFormed (run sanitizeString (initState db) evs) := by
  have hgen : ∀ (l : List Input) (s : State), WellFormed s →
      WellFormed (run sanitizeString s l) := by
    intro l
    induction l with
    | nil => intro s h; exact h
    | cons ev rest ih =>
      intro s h
      exact ih _ (wellFormed_step sanitizeString s ev h)
  apply hgen evs
  refine ⟨List.nodup_nil, ?_, ?_⟩
  · intro k hk
    simp [initState, objKeys] at hk
  · intro c t hc
    simp [initState, objGet] at hc

/-- In a well-formed state the `disconnect` of a socket that is in no member
list changes nothing at all. -/
theorem disconnect_outsider_wellFormed (s : State) (c : ConnId) (h : WellFormed s)
    (hout : ∀ e ∈ s.connections, c ∉ e.2) : disconnect s c = (s, []) := by
  have hnone : objGet s.timeOnline c = none := by
    cases ht : objGet s.timeOnline c with
    | none => rfl
    | some t =>
      obtain ⟨e, he, hce⟩ := h.2.2 c t ht
      exact absurd hce (hout e he)
  unfold disconnect
  rw [findRoom_eq_none hout]
  simp only [objDelete_eq_self s.timeOnline c hnone]

end TalkSpace
